import Mathlib

/-!
Verification of the policy-synthesis and structural-verification engine of
cilium-policypilot (packages `synth` and `verify`).

Modelling conventions:
* A Go `map[string]string` is modelled as an association list
  (`Labels := List (String × String)`) listing the map's entries in its
  iteration order.  Go's map iteration order is unspecified (and randomized
  between runs), so any ordering of the same entry set is a possible
  execution; operations that Go performs order-insensitively (lookup,
  key-sorted formatting, key-sorted serialization) are modelled by
  order-insensitive functions, while the one place the Go code consumes raw
  iteration order (the naming fallback of `generatePolicyName`) is modelled
  by taking the head of the association list.
* `uint16` ports carry no arithmetic in this code, so they are modelled as
  `Nat`; `fmt.Sprintf "%d"` is `Nat.repr`.
* Functions returning Go `error` are modelled with `Except String`/`Option`.
* Go's `fmt.Sprintf("%v", m)` on a `map[string]string` prints the entries
  sorted by key as `map[k1:v1 k2:v2]`; modelled by `fmtLabels`.
-/

namespace PolicyPilot

/-- Byte-lexicographic order on character lists; for valid UTF-8, code-point
order coincides with Go's byte-wise string order. -/
def lexLe : List Char → List Char → Bool
  | [], _ => true
  | _ :: _, [] => false
  | a :: as, b :: bs => if a = b then lexLe as bs else decide (a.toNat < b.toNat)

/-- Go string `<=` (byte-lexicographic). -/
def strLeB (a b : String) : Bool := lexLe a.data b.data

/-- Strict byte-lexicographic order on character lists. -/
def lexLt : List Char → List Char → Bool
  | [], [] => false
  | [], _ :: _ => true
  | _ :: _, [] => false
  | a :: as, b :: bs => if a = b then lexLt as bs else decide (a.toNat < b.toNat)

/-- Go string `<` (byte-lexicographic). -/
def strLtB (a b : String) : Bool := lexLt a.data b.data

/-- ASCII upper-casing of one character, as Go `strings.ToUpper` does for the
protocol names the validator compares. -/
def upChar (c : Char) : Char :=
  if 97 ≤ c.toNat ∧ c.toNat ≤ 122 then Char.ofNat (c.toNat - 32) else c

/-- Go `strings.ToUpper` (ASCII range, which covers the protocol names). -/
def upStr (s : String) : String := ⟨s.data.map upChar⟩

/-- Whitespace as Go `strings.TrimSpace` treats the characters appearing in
these files (space, tab, newline, carriage return). -/
def goIsSpace (c : Char) : Bool :=
  c = ' ' || c = '\t' || c = '\n' || c = '\r'

/-- Go `strings.TrimSpace` (structural model). -/
def trimSpace (s : String) : String :=
  ⟨((s.data.dropWhile goIsSpace).reverse.dropWhile goIsSpace).reverse⟩

/-- Split a character list at newlines, as Go `strings.Split(s, "\n")`. -/
def splitNl : List Char → List (List Char)
  | [] => [[]]
  | c :: cs =>
    match splitNl cs with
    | [] => [[]]
    | h :: t => if c = '\n' then [] :: h :: t else (c :: h) :: t

/-- Go `strings.Split(s, "\n")` (structural model). -/
def linesOf (s : String) : List String :=
  (splitNl s.data).map (fun l => ⟨l⟩)

/-- Go `map[string]string` in iteration order (see module docstring). -/
abbrev Labels := List (String × String)

/-- Association-list lookup, modelling Go map indexing `m[k]`. -/
def lookupA {β : Type} : List (String × β) → String → Option β
  | [], _ => none
  | (k', b) :: rest, k => if k' = k then some b else lookupA rest k

/-- Sort a list of strings, modelling Go `sort.Strings`. -/
def sortStrings (l : List String) : List String :=
  l.insertionSort (fun a b => strLeB a b)

/-- Sort label entries by key, modelling the key-sorted order in which Go
prints (`fmt %v`) and yaml.v3 serializes a `map[string]string`. -/
def sortPairsByKey (labels : Labels) : Labels :=
  labels.insertionSort (fun p q => strLeB p.1 q.1)

/-- Go `fmt.Sprintf("%v", labels)` for a `map[string]string`: entries sorted
by key, rendered `map[k1:v1 k2:v2]`. -/
def fmtLabels (labels : Labels) : String :=
  "map[" ++ String.intercalate " " ((sortPairsByKey labels).map (fun p => p.1 ++ ":" ++ p.2)) ++ "]"

/-- Two association lists denote the same Go map (same lookups). -/
def eqAsMap (l1 l2 : Labels) : Bool :=
  (l1 ++ l2).all (fun p => lookupA l1 p.1 == lookupA l2 p.1)

/-- `hubble.ParsedFlow`: extracted metadata of one observed flow. -/
structure ParsedFlow where
  SourceLabels : Labels := []
  SourceNamespace : String := ""
  SourcePod : String := ""
  DestLabels : Labels := []
  DestNamespace : String := ""
  DestPod : String := ""
  DestPort : Nat := 0
  Protocol : String := ""
  Direction : String := ""
  Verdict : String := ""
deriving DecidableEq, Inhabited

/-- `synth.EndpointKey`: destination identity used for grouping. -/
structure EndpointKey where
  Namespace : String
  Labels : Labels
deriving DecidableEq, Inhabited

/-- `synth.EndpointFlows`: one authorization unit (destination group). -/
structure EndpointFlows where
  Key : EndpointKey
  Flows : List ParsedFlow
deriving DecidableEq, Inhabited

/-- `synth.PortProtocol`. -/
structure PortProtocol where
  Port : String
  Protocol : String
deriving DecidableEq, Inhabited

/-- `synth.PortRule`. -/
structure PortRule where
  Ports : List PortProtocol
deriving DecidableEq, Inhabited

/-- `synth.EndpointSelector`. -/
structure EndpointSelector where
  MatchLabels : Labels
deriving DecidableEq, Inhabited

/-- `synth.IngressRule`. -/
structure IngressRule where
  FromEndpoints : List EndpointSelector := []
  ToPorts : List PortRule := []
deriving DecidableEq, Inhabited

/-- `synth.EgressRule`. -/
structure EgressRule where
  ToEndpoints : List EndpointSelector := []
  ToPorts : List PortRule := []
deriving DecidableEq, Inhabited

/-- `synth.PolicyMetadata`. -/
structure PolicyMetadata where
  Name : String
  Namespace : String
deriving DecidableEq, Inhabited

/-- `synth.PolicySpec`. -/
structure PolicySpec where
  endpointSelector : EndpointSelector
  Ingress : List IngressRule := []
  Egress : List EgressRule := []
deriving DecidableEq, Inhabited

/-- `synth.Policy`: a CiliumNetworkPolicy. -/
structure Policy where
  APIVersion : String
  Kind : String
  Metadata : PolicyMetadata
  Spec : PolicySpec
deriving DecidableEq, Inhabited

/-- `synth.endpointKeyToString`: canonical string for an endpoint key
(namespace, then sorted `k=v` pairs joined with commas). -/
def endpointKeyToString (key : EndpointKey) : String :=
  key.Namespace ++ ":" ++ String.intercalate "," (sortStrings (key.Labels.map (fun p => p.1 ++ "=" ++ p.2)))

/-- Destination grouping key of one flow. -/
def keyOfFlow (f : ParsedFlow) : String :=
  endpointKeyToString ⟨f.DestNamespace, f.DestLabels⟩

/-- Generic get-or-create-then-update step on a string-keyed association
list, modelling the `groups[keyStr]` / `ruleMap[sourceKey]` map pattern of
the Go code (new keys are appended; Go's map has no order, and the final
map-range order is modelled as insertion order since every consumer sorts
afterwards). -/
def gstep {α β : Type} (key : α → String) (base : α → β) (upd : β → α → β)
    (acc : List (String × β)) (x : α) : List (String × β) :=
  match lookupA acc (key x) with
  | some b => acc.map (fun e => if e.1 = key x then (e.1, upd b x) else e)
  | none => acc ++ [(key x, upd (base x) x)]

/-- First-occurrence deduplication; the key sequence that the get-or-create
pattern of `gstep` produces. -/
def dedupF {α : Type} [DecidableEq α] : List α → List α
  | [] => []
  | a :: l => a :: dedupF (l.filter (fun b => b ≠ a))
termination_by l => l.length
decreasing_by
  simp only [List.length_cons]
  exact Nat.lt_succ_of_le (List.length_filter_le _ _)

/-- The value that the `gstep` fold accumulates for one key: the base of
the first matching element updated with every matching element in order. -/
def gval {α β : Type} [Inhabited α] (key : α → String) (base : α → β) (upd : β → α → β)
    (k : String) (l : List α) : β :=
  List.foldl upd (base ((l.filter (fun x => key x == k)).headD default))
    (l.filter (fun x => key x == k))

/-- Skip condition of `groupFlowsByEndpoint`: flows without destination
namespace or destination labels are ignored. -/
def skipDest (f : ParsedFlow) : Bool :=
  f.DestNamespace == "" || f.DestLabels.isEmpty

/-- New (empty) group for a flow's destination endpoint. -/
def baseGroup (f : ParsedFlow) : EndpointFlows :=
  { Key := ⟨f.DestNamespace, f.DestLabels⟩, Flows := [] }

/-- Append a flow to a group. -/
def updGroup (g : EndpointFlows) (f : ParsedFlow) : EndpointFlows :=
  { g with Flows := g.Flows ++ [f] }

/-- Go comparator of the final group sort: primarily by namespace, secondarily
by the `%v` rendering of the label map. -/
def leGroup (g h : EndpointFlows) : Prop :=
  strLtB g.Key.Namespace h.Key.Namespace ∨
    (g.Key.Namespace = h.Key.Namespace ∧ strLeB (fmtLabels g.Key.Labels) (fmtLabels h.Key.Labels))

instance : DecidableRel leGroup := by
  unfold leGroup; infer_instance

/-- `synth.groupFlowsByEndpoint`: group flows by destination endpoint and
sort the groups by namespace, then label rendering. -/
def groupFlowsByEndpoint (flows : List ParsedFlow) : List EndpointFlows :=
  let entries := flows.foldl
    (fun acc f => if skipDest f then acc else gstep keyOfFlow baseGroup updGroup acc f) []
  (entries.map (·.2)).insertionSort leGroup

/-- Preferred identity keys of `generatePolicyName`, in priority order. -/
def preferredKeys : List String := ["app", "k8s:app", "name", "component"]

/-- The loop over `preferredKeys` in `generatePolicyName`. -/
def findPreferredValue : List String → Labels → Option String
  | [], _ => none
  | k :: ks, labels =>
    match lookupA labels k with
    | some v => some v
    | none => findPreferredValue ks labels

/-- `synth.generatePolicyName`: preferred-key value, else the first
map-iterated label's value, else the literal fallback. -/
def generatePolicyName (labels : Labels) : String :=
  match findPreferredValue preferredKeys labels with
  | some v => v ++ "-policy"
  | none =>
    match labels with
    | p :: _ => p.2 ++ "-policy"
    | [] => "default-policy"

/-- Effective protocol of a flow (`TCP` when the collaborator left it empty),
as computed inside `generateIngressRules`. -/
def protoOf (f : ParsedFlow) : String :=
  if f.Protocol = "" then "TCP" else f.Protocol

/-- The `(port, protocol)` entry a flow contributes. -/
def pairOf (f : ParsedFlow) : PortProtocol :=
  ⟨Nat.repr f.DestPort, protoOf f⟩

/-- All `(port, protocol)` entries over all port rules, as scanned by the
`portExists` loop in `generateIngressRules`. -/
def allPorts (tps : List PortRule) : List PortProtocol :=
  tps.foldr (fun pr acc => pr.Ports ++ acc) []

/-- Insertion part of the port-adding logic: append to the first port rule
whose (nonempty) ports share the new entry's protocol, else start a new port
rule at the end. -/
def addPortAux : List PortRule → PortProtocol → List PortRule
  | [], pp => [⟨[pp]⟩]
  | pr :: rest, pp =>
    if pr.Ports ≠ [] ∧ (pr.Ports.headD ⟨"", ""⟩).Protocol = pp.Protocol then
      ⟨pr.Ports ++ [pp]⟩ :: rest
    else
      pr :: addPortAux rest pp

/-- Port-adding logic of `generateIngressRules`: skip if the entry is already
present anywhere, else insert by protocol. -/
def addPort (tps : List PortRule) (pp : PortProtocol) : List PortRule :=
  if pp ∈ allPorts tps then tps else addPortAux tps pp

/-- One step of `(port, protocol)` deduplication inside a single port rule. -/
def addQ (acc : List PortProtocol) (q : PortProtocol) : List PortProtocol :=
  if q ∈ acc then acc else acc ++ [q]

/-- Skip condition of `generateIngressRules`: flows without source labels or
without a destination port contribute nothing. -/
def skipSrc (f : ParsedFlow) : Bool :=
  f.SourceLabels.isEmpty || f.DestPort == 0

/-- Rule-map key of a flow: Go `fmt.Sprintf("%v", flow.SourceLabels)`. -/
def srcKeyOf (f : ParsedFlow) : String :=
  fmtLabels f.SourceLabels

/-- New ingress rule for a first flow from a source. -/
def baseRule (f : ParsedFlow) : IngressRule :=
  { FromEndpoints := [⟨f.SourceLabels⟩], ToPorts := [] }

/-- Add one flow's `(port, protocol)` entry to a rule. -/
def updRule (r : IngressRule) (f : ParsedFlow) : IngressRule :=
  { r with ToPorts := addPort r.ToPorts (pairOf f) }

/-- Comparator of the port sort inside each port rule (by port string). -/
def lePP (p q : PortProtocol) : Prop := strLeB p.Port q.Port

instance : DecidableRel lePP := by
  unfold lePP; infer_instance

/-- Sort the ports inside each port rule of a rule, as the final loop of
`generateIngressRules` does. -/
def sortRulePorts (r : IngressRule) : IngressRule :=
  { r with ToPorts := r.ToPorts.map (fun pr => ⟨pr.Ports.insertionSort lePP⟩) }

/-- Source-label rendering of a rule, as used by the final rule sort. -/
def ruleSortKey (r : IngressRule) : String :=
  fmtLabels (r.FromEndpoints.headD ⟨[]⟩).MatchLabels

/-- Comparator of the final rule sort (by `%v` of the source label map). -/
def leRule (r s : IngressRule) : Prop := strLeB (ruleSortKey r) (ruleSortKey s)

instance : DecidableRel leRule := by
  unfold leRule; infer_instance

/-- `synth.generateIngressRules`: group usable flows by source label map,
aggregate deduplicated `(port, protocol)` entries, sort ports within each
port rule and sort the rules by source rendering. -/
def generateIngressRules (flows : List ParsedFlow) : List IngressRule :=
  let entries := flows.foldl
    (fun acc f => if skipSrc f then acc else gstep srcKeyOf baseRule updRule acc f) []
  ((entries.map (·.2)).map sortRulePorts).insertionSort leRule

/-- `synth.generatePolicyForEndpoint`: build the policy for one unit, or
`none` when the unit has no flows or attracted no rule. -/
def generatePolicyForEndpoint (group : EndpointFlows) : Option Policy :=
  if group.Flows = [] then none
  else
    let policyName := generatePolicyName group.Key.Labels
    let ingressRules := generateIngressRules group.Flows
    if ingressRules = [] then none
    else
      some
        { APIVersion := "cilium.io/v2"
          Kind := "CiliumNetworkPolicy"
          Metadata := { Name := policyName, Namespace := group.Key.Namespace }
          Spec :=
            { endpointSelector := ⟨group.Key.Labels⟩
              Ingress := ingressRules } }

/-- `synth.SynthesizePolicies`: error on empty input, else the policies of
the sorted endpoint groups (units yielding no rule are skipped). -/
def SynthesizePolicies (flows : List ParsedFlow) : Except String (List Policy) :=
  if flows = [] then .error "no flows provided"
  else .ok ((groupFlowsByEndpoint flows).filterMap generatePolicyForEndpoint)

/-- The group ordering of the final Go sort, transferred to the policies the
groups produce (namespace first, then the `%v` rendering of the selector). -/
def polLe (p q : Policy) : Prop :=
  strLtB p.Metadata.Namespace q.Metadata.Namespace ∨
    (p.Metadata.Namespace = q.Metadata.Namespace ∧
      strLeB (fmtLabels p.Spec.endpointSelector.MatchLabels)
        (fmtLabels q.Spec.endpointSelector.MatchLabels))

/-- Rendering of a sorted label map as YAML block entries, as yaml.v3
marshals a `map[string]string` (keys sorted). -/
def renderLabels (indent : String) (labels : Labels) : String :=
  String.join ((sortPairsByKey labels).map (fun p => indent ++ p.1 ++ ": " ++ p.2 ++ "\n"))

/-- Rendering of one port entry. -/
def renderPortProtocol (pp : PortProtocol) : String :=
  "        - port: \"" ++ pp.Port ++ "\"\n          protocol: " ++ pp.Protocol ++ "\n"

/-- Rendering of one port rule. -/
def renderPortRule (pr : PortRule) : String :=
  "      - ports:\n" ++ String.join (pr.Ports.map renderPortProtocol)

/-- Rendering of one ingress rule. -/
def renderIngressRule (r : IngressRule) : String :=
  "  - fromEndpoints:\n" ++
    String.join (r.FromEndpoints.map (fun es => "      - matchLabels:\n" ++ renderLabels "          " es.MatchLabels)) ++
    (if r.ToPorts = [] then "" else "    toPorts:\n" ++ String.join (r.ToPorts.map renderPortRule))

/-- yaml.v3 marshalling of one `Policy` (struct fields in declaration order,
map keys sorted), modelling the `yaml.Marshal` call of the external yaml
library on the §6 document shape. -/
def renderPolicy (p : Policy) : String :=
  "apiVersion: " ++ p.APIVersion ++ "\n" ++
  "kind: " ++ p.Kind ++ "\n" ++
  "metadata:\n  name: " ++ p.Metadata.Name ++ "\n" ++
  (if p.Metadata.Namespace = "" then "" else "  namespace: " ++ p.Metadata.Namespace ++ "\n") ++
  "spec:\n  endpointSelector:\n    matchLabels:\n" ++
  renderLabels "      " p.Spec.endpointSelector.MatchLabels ++
  (if p.Spec.Ingress = [] then "" else "ingress:\n" ++ String.join (p.Spec.Ingress.map renderIngressRule))

/-- Document text of `WritePoliciesToFile`: policies rendered in order,
consecutive documents separated by a `---` line. -/
def writePoliciesString (policies : List Policy) : String :=
  String.join (policies.enum.map (fun e => (if e.1 = 0 then "" else "---\n") ++ renderPolicy e.2))

/-- `synth.WritePoliciesToFile`: rejects an empty policy list, otherwise
returns the rendered file content (the file-system write is the out-of-scope
effect). -/
def WritePoliciesToFile (policies : List Policy) : Except String String :=
  if policies = [] then .error "no policies to write"
  else .ok (writePoliciesString policies)

/-- Whole pipeline: synthesis followed by serialization. -/
def synthAndWrite (flows : List ParsedFlow) : Except String String :=
  (SynthesizePolicies flows).bind WritePoliciesToFile

/-! ## The structural validator (`verify` package)

The validator parses documents into generic trees (`yaml.Unmarshal` into
`map[string]interface{}`); `YVal` models such a generic YAML value, `YDoc` a
string-keyed top-level mapping.  A Go type assertion that fails (wrong kind
or missing key) corresponds to a pattern that does not match. -/

/-- Generic YAML value as the validator sees it; `other` stands for any
scalar that is not a string (every type assertion fails on it). -/
inductive YVal where
  | str (s : String)
  | map (entries : List (String × YVal))
  | arr (items : List YVal)
  | other
deriving Inhabited

/-- A parsed top-level document (`map[string]interface{}`). -/
abbrev YDoc := List (String × YVal)

/-- `verify.PolicyInfo`. -/
structure PolicyInfo where
  Name : String := ""
  Namespace : String := ""
  Kind : String := ""
  Valid : Bool := true
  Errors : List String := []
deriving DecidableEq, Inhabited

/-- `verify.VerificationResult`. -/
structure VerificationResult where
  Valid : Bool := true
  Errors : List String := []
  Warnings : List String := []
  Policies : List PolicyInfo := []
deriving DecidableEq, Inhabited

/-- Record one violation on a `PolicyInfo`. -/
def addErr (info : PolicyInfo) (e : String) : PolicyInfo :=
  { info with Valid := false, Errors := info.Errors ++ [e] }

/-- The protocol names `validatePortRule` accepts (before upper-casing). -/
def validProtocols : List String := ["TCP", "UDP", "ICMP", "SCTP"]

/-- `verify.validatePortRule`: first violation of a port rule, if any. -/
def validatePortRule (portRule : YVal) : Option String :=
  match portRule with
  | .map pm =>
    match lookupA pm "ports" with
    | some (.arr ports) =>
      if ports.isEmpty then some "ports array cannot be empty"
      else
        ports.enum.findSome? (fun ip =>
          match ip.2 with
          | .map ppm =>
            match
              (match lookupA ppm "port" with
               | some (.str pv) =>
                 if pv = "" then some ("ports[" ++ Nat.repr ip.1 ++ "].port cannot be empty") else none
               | _ => some ("ports[" ++ Nat.repr ip.1 ++ "] missing required field: port")) with
            | some e => some e
            | none =>
              match lookupA ppm "protocol" with
              | some (.str pr) =>
                if validProtocols.contains (upStr pr) then none
                else some ("ports[" ++ Nat.repr ip.1 ++ "].protocol invalid: must be TCP, UDP, ICMP, or SCTP")
              | _ => some ("ports[" ++ Nat.repr ip.1 ++ "] missing required field: protocol")
          | _ => some ("ports[" ++ Nat.repr ip.1 ++ "] must be a map"))
    | _ => some "missing required field: ports"
  | _ => some "port rule must be a map"

/-- The endpoint-list check shared by `validateIngressRule` (fromEndpoints)
and `validateEgressRule` (toEndpoints): first violation, if any. -/
def checkEndpointsList (field : String) (eps : List YVal) : Option String :=
  eps.enum.findSome? (fun ie =>
    match ie.2 with
    | .map em =>
      match lookupA em "matchLabels" with
      | some (.map ml) =>
        if ml.isEmpty then some (field ++ "[" ++ Nat.repr ie.1 ++ "].matchLabels cannot be empty") else none
      | _ => some (field ++ "[" ++ Nat.repr ie.1 ++ "] missing matchLabels")
    | _ => some (field ++ "[" ++ Nat.repr ie.1 ++ "] must be a map"))

/-- The toPorts check shared by ingress and egress rule validation. -/
def checkToPortsList (tps : List YVal) : Option String :=
  tps.enum.findSome? (fun ip =>
    (validatePortRule ip.2).map (fun e => "toPorts[" ++ Nat.repr ip.1 ++ "]: " ++ e))

/-- `verify.validateIngressRule`: first violation of an ingress rule, if
any (the Go function returns a single `error`). -/
def validateIngressRule (rule : YVal) : Option String :=
  match rule with
  | .map rm =>
    match
      (match lookupA rm "fromEndpoints" with
       | some (.arr eps) => checkEndpointsList "fromEndpoints" eps
       | _ => none) with
    | some e => some e
    | none =>
      match lookupA rm "toPorts" with
      | some (.arr tps) => checkToPortsList tps
      | _ => none
  | _ => some "ingress rule must be a map"

/-- `verify.validateEgressRule`. -/
def validateEgressRule (rule : YVal) : Option String :=
  match rule with
  | .map rm =>
    match
      (match lookupA rm "toEndpoints" with
       | some (.arr eps) => checkEndpointsList "toEndpoints" eps
       | _ => none) with
    | some e => some e
    | none =>
      match lookupA rm "toPorts" with
      | some (.arr tps) => checkToPortsList tps
      | _ => none
  | _ => some "egress rule must be a map"

/-- The ingress array of a parsed `spec` mapping (empty when `ingress` is
absent or not an array, which the Go code silently skips). -/
def ingressArrOfSpec (sp : YDoc) : List YVal :=
  match lookupA sp "ingress" with
  | some (.arr ing) => ing
  | _ => []

/-- The egress array of a parsed `spec` mapping. -/
def egressArrOfSpec (sp : YDoc) : List YVal :=
  match lookupA sp "egress" with
  | some (.arr eg) => eg
  | _ => []

/-- The ingress array the validator scans in a document. -/
def ingressArrOf (policy : YDoc) : List YVal :=
  match lookupA policy "spec" with
  | some (.map sp) => ingressArrOfSpec sp
  | _ => []

/-- The egress array the validator scans in a document. -/
def egressArrOf (policy : YDoc) : List YVal :=
  match lookupA policy "spec" with
  | some (.map sp) => egressArrOfSpec sp
  | _ => []

/-- The apiVersion block of `verify.verifyPolicyDocument`. -/
def apiVersionCheck (policy : YDoc) (info : PolicyInfo) : PolicyInfo :=
  match lookupA policy "apiVersion" with
  | some (.str v) =>
    if v ≠ "cilium.io/v2" then
      addErr info ("invalid apiVersion: expected \x27cilium.io/v2\x27, got \x27" ++ v ++ "\x27")
    else info
  | _ => addErr info "missing required field: apiVersion"

/-- The kind block of `verify.verifyPolicyDocument` (also records the kind). -/
def kindCheck (policy : YDoc) (info : PolicyInfo) : PolicyInfo :=
  match lookupA policy "kind" with
  | some (.str k) =>
    let info := { info with Kind := k }
    if k ≠ "CiliumNetworkPolicy" then
      addErr info ("invalid kind: expected \x27CiliumNetworkPolicy\x27, got \x27" ++ k ++ "\x27")
    else info
  | _ => addErr info "missing required field: kind"

/-- The metadata block of `verify.verifyPolicyDocument` (records name and
namespace). -/
def metadataCheck (policy : YDoc) (info : PolicyInfo) : PolicyInfo :=
  match lookupA policy "metadata" with
  | some (.map md) =>
    let info :=
      match lookupA md "name" with
      | some (.str n) =>
        let info := { info with Name := n }
        if n = "" then addErr info "metadata.name cannot be empty" else info
      | _ => addErr info "missing required field: metadata.name"
    match lookupA md "namespace" with
    | some (.str ns) => { info with Namespace := ns }
    | _ => info
  | _ => addErr info "missing required field: metadata"

/-- The endpointSelector block of `verify.verifyPolicyDocument`, operating
on the parsed `spec` mapping. -/
def selectorCheck (sp : YDoc) (info : PolicyInfo) : PolicyInfo :=
  match lookupA sp "endpointSelector" with
  | some (.map es) =>
    match lookupA es "matchLabels" with
    | some (.map ml) =>
      if ml.isEmpty then addErr info "endpointSelector.matchLabels cannot be empty" else info
    | _ => addErr info "missing required field: spec.endpointSelector.matchLabels"
  | _ => addErr info "missing required field: spec.endpointSelector"

/-- One iteration of the ingress loop of `verify.verifyPolicyDocument`. -/
def ingressRuleStep (inf : PolicyInfo) (ir : Nat × YVal) : PolicyInfo :=
  match validateIngressRule ir.2 with
  | some e => addErr inf ("ingress[" ++ Nat.repr ir.1 ++ "]: " ++ e)
  | none => inf

/-- One iteration of the egress loop of `verify.verifyPolicyDocument`. -/
def egressRuleStep (inf : PolicyInfo) (er : Nat × YVal) : PolicyInfo :=
  match validateEgressRule er.2 with
  | some e => addErr inf ("egress[" ++ Nat.repr er.1 ++ "]: " ++ e)
  | none => inf

/-- The ingress loop of `verify.verifyPolicyDocument`: one accumulated
error per invalid rule. -/
def ingressCheck (sp : YDoc) (info : PolicyInfo) : PolicyInfo :=
  match lookupA sp "ingress" with
  | some (.arr ing) => ing.enum.foldl ingressRuleStep info
  | _ => info

/-- The egress loop of `verify.verifyPolicyDocument`. -/
def egressCheck (sp : YDoc) (info : PolicyInfo) : PolicyInfo :=
  match lookupA sp "egress" with
  | some (.arr eg) => eg.enum.foldl egressRuleStep info
  | _ => info

/-- The spec block of `verify.verifyPolicyDocument`: selector check and the
two rule loops, or a single missing-spec error. -/
def specCheck (policy : YDoc) (info : PolicyInfo) : PolicyInfo :=
  match lookupA policy "spec" with
  | some (.map sp) => egressCheck sp (ingressCheck sp (selectorCheck sp info))
  | _ => addErr info "missing required field: spec"

/-- `verify.verifyPolicyDocument` after the `yaml.Unmarshal` step: walk the
parsed mapping and accumulate each block's violations in order. -/
def checkPolicyDoc (policy : YDoc) : PolicyInfo :=
  specCheck policy (metadataCheck policy (kindCheck policy (apiVersionCheck policy {})))

/-- `verify.splitYAMLDocuments`: split on lines that trim to `---`; each
document keeps one trailing newline per captured line. -/
def splitYAMLDocuments (yamlContent : String) : List String :=
  let step := fun (st : List String × String) (line : String) =>
    if trimSpace line = "---" then
      if st.2 ≠ "" then (st.1 ++ [st.2], "") else st
    else
      (st.1, st.2 ++ line ++ "\n")
  let st := (linesOf yamlContent).foldl step ([], "")
  if st.2 ≠ "" then st.1 ++ [st.2] else st.1

/-- One document step of the `VerifyPolicies` loop: a parse failure marks
the whole result invalid and records a syntax error; otherwise the
document's own verdict is folded in. -/
def verifyDocStep (acc : VerificationResult) (docNum : Nat) (parsed : Option YDoc) :
    VerificationResult :=
  match parsed with
  | none =>
    { acc with
      Valid := false
      Errors := acc.Errors ++ ["Document " ++ Nat.repr docNum ++ ": invalid YAML syntax"]
      Policies := acc.Policies ++ [{ Valid := false, Errors := ["invalid YAML syntax"] }] }
  | some doc =>
    let info := checkPolicyDoc doc
    { acc with
      Valid := acc.Valid && info.Valid
      Policies := acc.Policies ++ [info] }

/-- Final check of `VerifyPolicies`: zero documents is a file-level failure
of its own. -/
def finalizeResult (r : VerificationResult) : VerificationResult :=
  if r.Policies = [] then
    { r with Valid := false, Errors := r.Errors ++ ["no valid policies found in file"] }
  else r

/-- The per-document result recorded for one non-blank document (a parse
failure yields an invalid entry with a single syntax-error message). -/
def docInfo (parsed : Option YDoc) : PolicyInfo :=
  match parsed with
  | none => { Valid := false, Errors := ["invalid YAML syntax"] }
  | some doc => checkPolicyDoc doc

/-- `verify.VerifyPolicies` on file content, abstracted over the YAML
parser of the external yaml library (`parse` returns `none` when
`yaml.Unmarshal` into a string-keyed mapping fails): split into documents,
skip blank ones, validate each, then apply the file-level check. -/
def VerifyPolicies (parse : String → Option YDoc) (content : String) : VerificationResult :=
  finalizeResult
    ((splitYAMLDocuments content).enum.foldl (fun acc d =>
      if trimSpace d.2 = "" then acc else verifyDocStep acc (d.1 + 1) (parse d.2)) {})

/-- `VerifyPolicies` as run on the serializer's own output: the serializer
emits one non-blank document per policy and the yaml round trip
(`yaml.Unmarshal` after `yaml.Marshal`) of each policy document is modelled
by `policyToYDoc` below, so the per-document loop runs directly on the
parsed documents. -/
def verifyPolicyDocs (docs : List YDoc) : VerificationResult :=
  finalizeResult (docs.foldl (fun acc d => verifyDocStep acc 0 (some d)) {})

/-- Generic-tree view of a label map after the yaml round trip (keys
sorted, as yaml.v3 marshals maps). -/
def labelsToY (labels : Labels) : YVal :=
  .map ((sortPairsByKey labels).map (fun p => (p.1, .str p.2)))

/-- Generic-tree view of an endpoint selector. -/
def selectorToY (es : EndpointSelector) : YVal :=
  .map [("matchLabels", labelsToY es.MatchLabels)]

/-- Generic-tree view of a port rule. -/
def portRuleToY (pr : PortRule) : YVal :=
  .map [("ports", .arr (pr.Ports.map (fun pp =>
    .map [("port", .str pp.Port), ("protocol", .str pp.Protocol)])))]

/-- Generic-tree view of an ingress rule (`omitempty` fields dropped when
empty, as yaml.v3 does). -/
def ingressRuleToY (r : IngressRule) : YVal :=
  .map
    ((if r.FromEndpoints = [] then [] else
        [("fromEndpoints", .arr (r.FromEndpoints.map selectorToY))]) ++
     (if r.ToPorts = [] then [] else
        [("toPorts", .arr (r.ToPorts.map portRuleToY))]))

/-- Generic-tree view of an egress rule. -/
def egressRuleToY (r : EgressRule) : YVal :=
  .map
    ((if r.ToEndpoints = [] then [] else
        [("toEndpoints", .arr (r.ToEndpoints.map selectorToY))]) ++
     (if r.ToPorts = [] then [] else
        [("toPorts", .arr (r.ToPorts.map portRuleToY))]))

/-- The parsed generic tree of one serialized policy document: what
`yaml.Unmarshal` into `map[string]interface{}` yields on `yaml.Marshal` of
a `Policy` (struct fields in declaration order, `omitempty` respected). -/
def policyToYDoc (p : Policy) : YDoc :=
  [("apiVersion", .str p.APIVersion),
   ("kind", .str p.Kind),
   ("metadata", .map
     ([("name", .str p.Metadata.Name)] ++
      (if p.Metadata.Namespace = "" then [] else [("namespace", .str p.Metadata.Namespace)]))),
   ("spec", .map
     ([("endpointSelector", selectorToY p.Spec.endpointSelector)] ++
      (if p.Spec.Ingress = [] then [] else
        [("ingress", .arr (p.Spec.Ingress.map ingressRuleToY))]) ++
      (if p.Spec.Egress = [] then [] else
        [("egress", .arr (p.Spec.Egress.map egressRuleToY))])))]

/-! ## Derived definitions used to state the claims -/

/-- The apiVersion violation of a document, if any (mirrors the first check
of `verifyPolicyDocument`). -/
def apiErrOf (policy : YDoc) : Option String :=
  match lookupA policy "apiVersion" with
  | some (.str v) =>
    if v ≠ "cilium.io/v2" then
      some ("invalid apiVersion: expected \x27cilium.io/v2\x27, got \x27" ++ v ++ "\x27")
    else none
  | _ => some "missing required field: apiVersion"

/-- The kind violation of a document, if any. -/
def kindErrOf (policy : YDoc) : Option String :=
  match lookupA policy "kind" with
  | some (.str k) =>
    if k ≠ "CiliumNetworkPolicy" then
      some ("invalid kind: expected \x27CiliumNetworkPolicy\x27, got \x27" ++ k ++ "\x27")
    else none
  | _ => some "missing required field: kind"

/-- The metadata violation of a document, if any. -/
def metaErrOf (policy : YDoc) : Option String :=
  match lookupA policy "metadata" with
  | some (.map md) =>
    match lookupA md "name" with
    | some (.str n) => if n = "" then some "metadata.name cannot be empty" else none
    | _ => some "missing required field: metadata.name"
  | _ => some "missing required field: metadata"

/-- The endpointSelector violation of a parsed `spec` mapping, if any. -/
def selErrOfSpec (sp : YDoc) : Option String :=
  match lookupA sp "endpointSelector" with
  | some (.map es) =>
    match lookupA es "matchLabels" with
    | some (.map ml) =>
      if ml.isEmpty then some "endpointSelector.matchLabels cannot be empty" else none
    | _ => some "missing required field: spec.endpointSelector.matchLabels"
  | _ => some "missing required field: spec.endpointSelector"

/-- The spec/endpointSelector violation of a document, if any. -/
def specErrOf (policy : YDoc) : Option String :=
  match lookupA policy "spec" with
  | some (.map sp) => selErrOfSpec sp
  | _ => some "missing required field: spec"

/-- The accumulated top-level (non-rule) errors of a document, in the order
the validator records them. -/
def topErrsOf (policy : YDoc) : List String :=
  (apiErrOf policy).toList ++ (kindErrOf policy).toList ++
    (metaErrOf policy).toList ++ (specErrOf policy).toList

/-- The accumulated per-ingress-rule errors: at most one per rule index. -/
def ingressErrsOf (policy : YDoc) : List String :=
  (ingressArrOf policy).enum.filterMap (fun ir =>
    (validateIngressRule ir.2).map (fun e => "ingress[" ++ Nat.repr ir.1 ++ "]: " ++ e))

/-- The accumulated per-egress-rule errors: at most one per rule index. -/
def egressErrsOf (policy : YDoc) : List String :=
  (egressArrOf policy).enum.filterMap (fun er =>
    (validateEgressRule er.2).map (fun e => "egress[" ++ Nat.repr er.1 ++ "]: " ++ e))

/-- The minimality property claimed for synthesis (C7), as a decidable
check over one input: every `(port, protocol)` entry of every rule of every
emitted policy is witnessed by an input flow whose destination identity
(as a map, together with the namespace) matches the policy's selector,
whose source identity matches the rule's selector, and whose port and
effective protocol match the entry. -/
def minimalityHolds (flows : List ParsedFlow) : Bool :=
  match SynthesizePolicies flows with
  | .error _ => true
  | .ok ps =>
    ps.all (fun p => p.Spec.Ingress.all (fun r => r.ToPorts.all (fun pr => pr.Ports.all (fun pp =>
      flows.any (fun f =>
        eqAsMap f.DestLabels p.Spec.endpointSelector.MatchLabels &&
        (f.DestNamespace == p.Metadata.Namespace) &&
        eqAsMap f.SourceLabels (r.FromEndpoints.headD ⟨[]⟩).MatchLabels &&
        (Nat.repr f.DestPort == pp.Port) &&
        (protoOf f == pp.Protocol))))))

/-! ## Concrete fixtures used by counterexamples and witnesses -/

/-- Scenario-A flow: frontend to catalog on TCP 8080. -/
def flowA : ParsedFlow :=
  { SourceLabels := [("app", "frontend")]
    SourceNamespace := "default"
    DestLabels := [("app", "catalog")]
    DestNamespace := "default"
    DestPort := 8080
    Protocol := "TCP" }

/-- A TCP flow, frontend to catalog port 80. -/
def flowTCP : ParsedFlow :=
  { SourceLabels := [("app", "frontend")]
    DestLabels := [("app", "catalog")]
    DestNamespace := "default"
    DestPort := 80
    Protocol := "TCP" }

/-- A UDP flow between the same endpoints, port 53. -/
def flowUDP : ParsedFlow :=
  { SourceLabels := [("app", "frontend")]
    DestLabels := [("app", "catalog")]
    DestNamespace := "default"
    DestPort := 53
    Protocol := "UDP" }

/-- A flow whose destination labels collide, under `endpointKeyToString`,
with `flowCollideB`'s distinct destination labels. -/
def flowCollideA : ParsedFlow :=
  { SourceLabels := [("app", "frontend")]
    DestLabels := [("a", "b,c=d")]
    DestNamespace := "default"
    DestPort := 80
    Protocol := "TCP" }

/-- Second flow of the collision pair: `{a: b, c: d}` produces the same
canonical key string as `{a: "b,c=d"}`. -/
def flowCollideB : ParsedFlow :=
  { SourceLabels := [("app", "other")]
    DestLabels := [("a", "b"), ("c", "d")]
    DestNamespace := "default"
    DestPort := 443
    Protocol := "TCP" }

/-- The policy object synthesized from `[flowA]`. -/
def policyA : Policy :=
  { APIVersion := "cilium.io/v2"
    Kind := "CiliumNetworkPolicy"
    Metadata := { Name := "catalog-policy", Namespace := "default" }
    Spec :=
      { endpointSelector := { MatchLabels := [("app", "catalog")] }
        Ingress := [{ FromEndpoints := [{ MatchLabels := [("app", "frontend")] }]
                      ToPorts := [{ Ports := [{ Port := "8080", Protocol := "TCP" }] }] }]
        Egress := [] } }

/-- A document with two violations inside the same ingress rule: its
`fromEndpoints[0]` lacks matchLabels and its `toPorts[0]` carries an
invalid protocol. -/
def docTwoViolations : YDoc :=
  [("apiVersion", .str "cilium.io/v2"),
   ("kind", .str "CiliumNetworkPolicy"),
   ("metadata", .map [("name", .str "x")]),
   ("spec", .map
     [("endpointSelector", .map [("matchLabels", .map [("app", .str "x")])]),
      ("ingress", .arr
        [.map [("fromEndpoints", .arr [.map []]),
               ("toPorts", .arr [.map [("ports", .arr
                 [.map [("port", .str "80"), ("protocol", .str "HTTP")]])]])]])])]

/-! ## General helper lemmas -/

theorem foldl_filter_skip {α β : Type} (p : α → Bool) (step : β → α → β) :
    ∀ (l : List α) (acc : β),
      l.foldl (fun a x => if p x then a else step a x) acc =
        (l.filter (fun x => !p x)).foldl (fun a x => if p x then a else step a x) acc := by
  intro l
  induction l with
  | nil => intro acc; rfl
  | cons x l ih =>
    intro acc
    by_cases h : p x <;> simp [h, List.foldl_cons, ih]

theorem findPreferredValue_eq (ks : List String) (labels : Labels) :
    findPreferredValue ks labels = ks.findSome? (fun k => lookupA labels k) := by
  induction ks with
  | nil => rfl
  | cons k ks ih =>
    simp only [findPreferredValue, List.findSome?_cons]
    cases lookupA labels k <;> simp [ih]

theorem generatePolicyForEndpoint_some {g : EndpointFlows} {p : Policy}
    (h : generatePolicyForEndpoint g = some p) :
    g.Flows ≠ [] ∧ generateIngressRules g.Flows ≠ [] ∧
      p = { APIVersion := "cilium.io/v2", Kind := "CiliumNetworkPolicy"
            Metadata := ⟨generatePolicyName g.Key.Labels, g.Key.Namespace⟩
            Spec := ⟨⟨g.Key.Labels⟩, generateIngressRules g.Flows, []⟩ } := by
  unfold generatePolicyForEndpoint at h
  by_cases h1 : g.Flows = [] <;> simp [h1] at h
  by_cases h2 : generateIngressRules g.Flows = [] <;> simp [h2] at h
  exact ⟨h1, h2, h.symm⟩

theorem ingress_fold_errors :
    ∀ (l : List (Nat × YVal)) (info : PolicyInfo),
      (l.foldl ingressRuleStep info).Errors =
        info.Errors ++ l.filterMap (fun ir =>
          (validateIngressRule ir.2).map (fun e => "ingress[" ++ Nat.repr ir.1 ++ "]: " ++ e)) := by
  intro l
  induction l with
  | nil => intro info; simp
  | cons x l ih =>
    intro info
    cases hv : validateIngressRule x.2 <;>
      simp only [List.foldl_cons, ingressRuleStep, hv] <;>
        rw [ih] <;> simp [addErr, hv]

theorem egress_fold_errors :
    ∀ (l : List (Nat × YVal)) (info : PolicyInfo),
      (l.foldl egressRuleStep info).Errors =
        info.Errors ++ l.filterMap (fun er =>
          (validateEgressRule er.2).map (fun e => "egress[" ++ Nat.repr er.1 ++ "]: " ++ e)) := by
  intro l
  induction l with
  | nil => intro info; simp
  | cons x l ih =>
    intro info
    cases hv : validateEgressRule x.2 <;>
      simp only [List.foldl_cons, egressRuleStep, hv] <;>
        rw [ih] <;> simp [addErr, hv]

theorem ingress_fold_valid :
    ∀ (l : List (Nat × YVal)) (info : PolicyInfo),
      (l.foldl ingressRuleStep info).Valid =
        (info.Valid && l.all (fun ir => (validateIngressRule ir.2).isNone)) := by
  intro l
  induction l with
  | nil => intro info; simp
  | cons x l ih =>
    intro info
    cases hv : validateIngressRule x.2 <;>
      simp only [List.foldl_cons, ingressRuleStep, hv] <;>
        rw [ih] <;> simp [addErr, hv]

theorem egress_fold_valid :
    ∀ (l : List (Nat × YVal)) (info : PolicyInfo),
      (l.foldl egressRuleStep info).Valid =
        (info.Valid && l.all (fun er => (validateEgressRule er.2).isNone)) := by
  intro l
  induction l with
  | nil => intro info; simp
  | cons x l ih =>
    intro info
    cases hv : validateEgressRule x.2 <;>
      simp only [List.foldl_cons, egressRuleStep, hv] <;>
        rw [ih] <;> simp [addErr, hv]

/-! ## Grouping-fold characterization -/

theorem mem_dedupF {α : Type} [DecidableEq α] (a : α) : ∀ l : List α, a ∈ dedupF l ↔ a ∈ l := by
  intro l
  induction l using dedupF.induct with
  | case1 => simp [dedupF]
  | case2 b t ih =>
    rw [dedupF]
    by_cases hab : a = b
    · simp [hab]
    · simp only [List.mem_cons, hab, false_or, ih, List.mem_filter]
      simp [hab]

theorem nodup_dedupF {α : Type} [DecidableEq α] : ∀ l : List α, (dedupF l).Nodup := by
  intro l
  induction l using dedupF.induct with
  | case1 => simp [dedupF]
  | case2 b t ih =>
    rw [dedupF]
    refine List.Nodup.cons ?_ ih
    intro hmem
    have := (mem_dedupF b _).mp hmem
    simp at this

theorem dedupF_append_singleton {α : Type} [DecidableEq α] (a : α) :
    ∀ l : List α, dedupF (l ++ [a]) = if a ∈ l then dedupF l else dedupF l ++ [a] := by
  intro l
  induction l using dedupF.induct with
  | case1 => simp [dedupF]
  | case2 b t ih =>
    by_cases hab : a = b
    · subst hab
      rw [List.cons_append, dedupF, dedupF]
      have : (t ++ [a]).filter (fun x => x ≠ a) = t.filter (fun x => x ≠ a) := by
        simp [List.filter_append]
      simp [this]
    · rw [List.cons_append, dedupF, dedupF]
      have : (t ++ [a]).filter (fun x => x ≠ b) = t.filter (fun x => x ≠ b) ++ [a] := by
        simp [List.filter_append, hab]
      rw [this, ih]
      have hmem : a ∈ t.filter (fun x => x ≠ b) ↔ a ∈ t := by
        simp [List.mem_filter, hab]
      by_cases hat : a ∈ t <;> simp [hat, hmem, hab]

theorem lookupA_map_keys {β : Type} (v : String → β) (s : String) :
    ∀ ks : List String, ks.Nodup →
      lookupA (ks.map (fun k => (k, v k))) s = if s ∈ ks then some (v s) else none := by
  intro ks
  induction ks with
  | nil => intro _; simp [lookupA]
  | cons k ks ih =>
    intro hnd
    rw [List.map_cons, lookupA]
    by_cases hks : k = s
    · subst hks
      simp
    · rw [if_neg hks, ih hnd.of_cons]
      by_cases hmem : s ∈ ks <;> simp [hmem, Ne.symm hks, hks]

theorem filter_key_ne_nil {α : Type} (key : α → String) (k : String) (l : List α) :
    (l.filter (fun x => key x == k)) ≠ [] ↔ k ∈ l.map key := by
  rw [Ne, List.filter_eq_nil_iff]
  simp only [List.mem_map, not_forall]
  constructor
  · rintro ⟨x, hx, hk⟩
    refine ⟨x, hx, ?_⟩
    simpa using hk
  · rintro ⟨x, hx, hk⟩
    exact ⟨x, hx, by simp [hk]⟩

theorem gval_append_ne {α β : Type} [Inhabited α] (key : α → String) (base : α → β)
    (upd : β → α → β) (k : String) (l : List α) (x : α) (h : key x ≠ k) :
    gval key base upd k (l ++ [x]) = gval key base upd k l := by
  unfold gval
  rw [List.filter_append]
  simp [h]

theorem gval_append_mem {α β : Type} [Inhabited α] (key : α → String) (base : α → β)
    (upd : β → α → β) (l : List α) (x : α) (h : key x ∈ l.map key) :
    gval key base upd (key x) (l ++ [x]) = upd (gval key base upd (key x) l) x := by
  unfold gval
  have hne := (filter_key_ne_nil key (key x) l).mpr h
  obtain ⟨c, cs, hcc⟩ : ∃ c cs, l.filter (fun y => key y == key x) = c :: cs := by
    cases hf : l.filter (fun y => key y == key x) with
    | nil => exact absurd hf hne
    | cons c cs => exact ⟨c, cs, rfl⟩
  rw [List.filter_append, hcc]
  simp [List.foldl_append]

theorem gval_append_fresh {α β : Type} [Inhabited α] (key : α → String) (base : α → β)
    (upd : β → α → β) (l : List α) (x : α) (h : key x ∉ l.map key) :
    gval key base upd (key x) (l ++ [x]) = upd (base x) x := by
  unfold gval
  have hnil : l.filter (fun y => key y == key x) = [] := by
    by_contra hc
    exact h ((filter_key_ne_nil key (key x) l).mp hc)
  rw [List.filter_append, hnil]
  simp

theorem gfold_char {α β : Type} [Inhabited α] (key : α → String) (base : α → β)
    (upd : β → α → β) :
    ∀ l : List α,
      List.foldl (gstep key base upd) [] l =
        (dedupF (l.map key)).map (fun k => (k, gval key base upd k l)) := by
  intro l
  induction l using List.reverseRecOn with
  | nil => simp [dedupF]
  | append_singleton l x ih =>
    rw [List.foldl_append, List.foldl_cons, List.foldl_nil, ih]
    rw [List.map_append, List.map_singleton, dedupF_append_singleton]
    unfold gstep
    rw [lookupA_map_keys _ _ _ (nodup_dedupF _)]
    by_cases hmem : key x ∈ l.map key
    · rw [if_pos ((mem_dedupF _ _).mpr hmem), if_pos hmem]
      dsimp only
      rw [List.map_map]
      apply List.map_congr_left
      intro k hk
      have hkl : k ∈ l.map key := (mem_dedupF _ _).mp hk
      by_cases hkx : k = key x
      · subst hkx
        simp [gval_append_mem _ _ _ _ _ hmem]
      · simp only [Function.comp_apply, if_neg hkx]
        rw [gval_append_ne _ _ _ _ _ _ (fun h => hkx h.symm)]
    · rw [if_neg (fun h => hmem ((mem_dedupF _ _).mp h)), if_neg hmem]
      dsimp only
      rw [List.map_append, List.map_singleton]
      congr 1
      · apply List.map_congr_left
        intro k hk
        have hkl : k ∈ l.map key := (mem_dedupF _ _).mp hk
        rw [gval_append_ne _ _ _ _ _ _ (fun h => hmem (by rw [h]; exact hkl))]
      · rw [gval_append_fresh _ _ _ _ _ hmem]

/-! ## Group and rule characterizations -/

theorem foldl_if_skip_of_not {α β : Type} (p : α → Bool) (step : β → α → β) :
    ∀ (l : List α) (acc : β), (∀ x ∈ l, p x = false) →
      l.foldl (fun a x => if p x then a else step a x) acc = l.foldl step acc := by
  intro l
  induction l with
  | nil => intro acc _; rfl
  | cons x l ih =>
    intro acc h
    have hx : p x = false := h x (by simp)
    simp only [List.foldl_cons, hx, Bool.false_eq_true, if_false]
    exact ih _ (fun y hy => h y (by simp [hy]))

theorem groupFlows_entries (flows : List ParsedFlow) :
    flows.foldl
        (fun acc f => if skipDest f then acc else gstep keyOfFlow baseGroup updGroup acc f) [] =
      List.foldl (gstep keyOfFlow baseGroup updGroup) []
        (flows.filter (fun f => !skipDest f)) := by
  rw [foldl_filter_skip]
  apply foldl_if_skip_of_not
  intro x hx
  have := (List.mem_filter.mp hx).2
  simpa using this

theorem foldl_updGroup :
    ∀ (fl : List ParsedFlow) (g : EndpointFlows),
      List.foldl updGroup g fl = ⟨g.Key, g.Flows ++ fl⟩ := by
  intro fl
  induction fl with
  | nil => intro g; simp
  | cons f fl ih =>
    intro g
    rw [List.foldl_cons, ih]
    simp [updGroup]

theorem gval_group (k : String) (l : List ParsedFlow) :
    gval keyOfFlow baseGroup updGroup k l =
      ⟨⟨((l.filter (fun x => keyOfFlow x == k)).headD default).DestNamespace,
        ((l.filter (fun x => keyOfFlow x == k)).headD default).DestLabels⟩,
       l.filter (fun x => keyOfFlow x == k)⟩ := by
  unfold gval
  rw [foldl_updGroup]
  simp [baseGroup]

theorem groupFlowsByEndpoint_char (flows : List ParsedFlow) :
    groupFlowsByEndpoint flows =
      ((dedupF ((flows.filter (fun f => !skipDest f)).map keyOfFlow)).map
        (fun k => gval keyOfFlow baseGroup updGroup k
          (flows.filter (fun f => !skipDest f)))).insertionSort leGroup := by
  unfold groupFlowsByEndpoint
  rw [groupFlows_entries, gfold_char]
  simp only [List.map_map]
  rfl

theorem group_shape {flows : List ParsedFlow} {g : EndpointFlows}
    (hg : g ∈ groupFlowsByEndpoint flows) :
    ∃ f0, f0 ∈ g.Flows ∧ g.Key = ⟨f0.DestNamespace, f0.DestLabels⟩ ∧
      (∀ f ∈ g.Flows, f ∈ flows ∧ skipDest f = false ∧ keyOfFlow f = keyOfFlow f0) := by
  rw [groupFlowsByEndpoint_char] at hg
  rw [List.mem_insertionSort] at hg
  obtain ⟨k, hk, rfl⟩ := List.mem_map.mp hg
  set gl := flows.filter (fun f => !skipDest f) with hgl
  have hkk : k ∈ gl.map keyOfFlow := (mem_dedupF _ _).mp hk
  have hne : gl.filter (fun x => keyOfFlow x == k) ≠ [] :=
    (filter_key_ne_nil keyOfFlow k gl).mpr hkk
  obtain ⟨c, cs, hcc⟩ : ∃ c cs, gl.filter (fun x => keyOfFlow x == k) = c :: cs := by
    cases hf : gl.filter (fun x => keyOfFlow x == k) with
    | nil => exact absurd hf hne
    | cons c cs => exact ⟨c, cs, rfl⟩
  rw [gval_group, hcc]
  refine ⟨c, by simp, by simp, ?_⟩
  intro f hf
  have hf' : f ∈ gl.filter (fun x => keyOfFlow x == k) := by rw [hcc]; simpa using hf
  have h1 := List.mem_filter.mp hf'
  have h2 := List.mem_filter.mp h1.1
  have hc' : c ∈ gl.filter (fun x => keyOfFlow x == k) := by rw [hcc]; simp
  have hc1 := List.mem_filter.mp hc'
  refine ⟨h2.1, by simpa using h2.2, ?_⟩
  have : keyOfFlow f = k := by simpa using h1.2
  have : keyOfFlow c = k := by simpa using hc1.2
  simp_all

theorem foldl_updRule :
    ∀ (fl : List ParsedFlow) (r : IngressRule),
      List.foldl updRule r fl =
        ⟨r.FromEndpoints, List.foldl addPort r.ToPorts (fl.map pairOf)⟩ := by
  intro fl
  induction fl with
  | nil => intro r; simp
  | cons f fl ih =>
    intro r
    rw [List.foldl_cons, ih]
    simp [updRule]

theorem gval_rule (k : String) (l : List ParsedFlow) :
    gval srcKeyOf baseRule updRule k l =
      ⟨[⟨((l.filter (fun x => srcKeyOf x == k)).headD default).SourceLabels⟩,],
       List.foldl addPort [] ((l.filter (fun x => srcKeyOf x == k)).map pairOf)⟩ := by
  unfold gval
  rw [foldl_updRule]
  simp [baseRule]

theorem rules_entries (flows : List ParsedFlow) :
    flows.foldl
        (fun acc f => if skipSrc f then acc else gstep srcKeyOf baseRule updRule acc f) [] =
      List.foldl (gstep srcKeyOf baseRule updRule) []
        (flows.filter (fun f => !skipSrc f)) := by
  rw [foldl_filter_skip]
  apply foldl_if_skip_of_not
  intro x hx
  have := (List.mem_filter.mp hx).2
  simpa using this

theorem generateIngressRules_char (flows : List ParsedFlow) :
    generateIngressRules flows =
      ((dedupF ((flows.filter (fun f => !skipSrc f)).map srcKeyOf)).map
        (fun k => sortRulePorts (gval srcKeyOf baseRule updRule k
          (flows.filter (fun f => !skipSrc f))))).insertionSort leRule := by
  unfold generateIngressRules
  rw [rules_entries, gfold_char]
  simp only [List.map_map]
  rfl

theorem rule_shape {flows : List ParsedFlow} {r : IngressRule}
    (hr : r ∈ generateIngressRules flows) :
    ∃ (g0 : ParsedFlow) (fl : List ParsedFlow), g0 ∈ fl ∧
      (∀ f ∈ fl, f ∈ flows ∧ skipSrc f = false ∧ srcKeyOf f = srcKeyOf g0) ∧
      r.FromEndpoints = [⟨g0.SourceLabels⟩] ∧
      r.ToPorts = (List.foldl addPort [] (fl.map pairOf)).map
        (fun pr => ⟨pr.Ports.insertionSort lePP⟩) := by
  rw [generateIngressRules_char] at hr
  rw [List.mem_insertionSort] at hr
  obtain ⟨k, hk, rfl⟩ := List.mem_map.mp hr
  set ul := flows.filter (fun f => !skipSrc f) with hul
  have hkk : k ∈ ul.map srcKeyOf := (mem_dedupF _ _).mp hk
  have hne : ul.filter (fun x => srcKeyOf x == k) ≠ [] :=
    (filter_key_ne_nil srcKeyOf k ul).mpr hkk
  obtain ⟨c, cs, hcc⟩ : ∃ c cs, ul.filter (fun x => srcKeyOf x == k) = c :: cs := by
    cases hf : ul.filter (fun x => srcKeyOf x == k) with
    | nil => exact absurd hf hne
    | cons c cs => exact ⟨c, cs, rfl⟩
  refine ⟨c, ul.filter (fun x => srcKeyOf x == k), by simp [hcc], ?_, ?_, ?_⟩
  · intro f hf
    have h1 := List.mem_filter.mp hf
    have h2 := List.mem_filter.mp h1.1
    have hc' : c ∈ ul.filter (fun x => srcKeyOf x == k) := by rw [hcc]; simp
    have hc1 := List.mem_filter.mp hc'
    refine ⟨h2.1, by simpa using h2.2, ?_⟩
    have hfk : srcKeyOf f = k := by simpa using h1.2
    have hck : srcKeyOf c = k := by simpa using hc1.2
    rw [hfk, hck]
  · rw [gval_rule, hcc]
    simp [sortRulePorts]
  · rw [gval_rule, hcc]
    simp [sortRulePorts]

/-! ## Stage lemmas for the document validator -/

theorem apiVersionCheck_errors (policy : YDoc) (info : PolicyInfo) :
    (apiVersionCheck policy info).Errors = info.Errors ++ (apiErrOf policy).toList := by
  unfold apiVersionCheck apiErrOf
  repeat' split
  all_goals simp_all [addErr]

theorem kindCheck_errors (policy : YDoc) (info : PolicyInfo) :
    (kindCheck policy info).Errors = info.Errors ++ (kindErrOf policy).toList := by
  unfold kindCheck kindErrOf
  repeat' split
  all_goals simp_all [addErr]

theorem metadataCheck_errors (policy : YDoc) (info : PolicyInfo) :
    (metadataCheck policy info).Errors = info.Errors ++ (metaErrOf policy).toList := by
  unfold metadataCheck metaErrOf
  repeat' split
  all_goals simp_all [addErr]

theorem selectorCheck_errors (sp : YDoc) (info : PolicyInfo) :
    (selectorCheck sp info).Errors = info.Errors ++ (selErrOfSpec sp).toList := by
  unfold selectorCheck selErrOfSpec
  repeat' split
  all_goals simp_all [addErr]

theorem ingressCheck_errors (sp : YDoc) (info : PolicyInfo) :
    (ingressCheck sp info).Errors =
      info.Errors ++ (ingressArrOfSpec sp).enum.filterMap (fun ir =>
        (validateIngressRule ir.2).map (fun e => "ingress[" ++ Nat.repr ir.1 ++ "]: " ++ e)) := by
  unfold ingressCheck ingressArrOfSpec
  repeat' split
  all_goals simp_all [ingress_fold_errors]

theorem egressCheck_errors (sp : YDoc) (info : PolicyInfo) :
    (egressCheck sp info).Errors =
      info.Errors ++ (egressArrOfSpec sp).enum.filterMap (fun er =>
        (validateEgressRule er.2).map (fun e => "egress[" ++ Nat.repr er.1 ++ "]: " ++ e)) := by
  unfold egressCheck egressArrOfSpec
  repeat' split
  all_goals simp_all [egress_fold_errors]

theorem specCheck_errors (policy : YDoc) (info : PolicyInfo) :
    (specCheck policy info).Errors =
      info.Errors ++ (specErrOf policy).toList ++ ingressErrsOf policy ++ egressErrsOf policy := by
  unfold specCheck specErrOf ingressErrsOf egressErrsOf ingressArrOf egressArrOf
  repeat' split
  all_goals
    simp_all [addErr, egressCheck_errors, ingressCheck_errors, selectorCheck_errors,
      List.append_assoc]

/-- C3 (amended): the per-document error list decomposes as the top-level
check errors followed by one accumulated error per invalid ingress rule
followed by one per invalid egress rule; a rule with several internal
violations contributes only its first (that is `validateIngressRule`'s
value), so errors accumulate across checks and across rules but not within
one rule. -/
theorem checkPolicyDoc_errors_decomposition (policy : YDoc) :
    (checkPolicyDoc policy).Errors =
      topErrsOf policy ++ ingressErrsOf policy ++ egressErrsOf policy := by
  unfold checkPolicyDoc topErrsOf
  rw [specCheck_errors, metadataCheck_errors, kindCheck_errors, apiVersionCheck_errors]
  simp [List.append_assoc]


theorem mem_allPorts {q : PortProtocol} :
    ∀ tps : List PortRule, q ∈ allPorts tps ↔ ∃ pr ∈ tps, q ∈ pr.Ports := by
  intro tps
  induction tps with
  | nil => simp [allPorts]
  | cons pr tps ih =>
    simp only [allPorts, List.foldr_cons, List.mem_append]
    constructor
    · rintro (h | h)
      · exact ⟨pr, by simp, h⟩
      · obtain ⟨pr', hpr', hq⟩ := ih.mp h
        exact ⟨pr', by simp [hpr'], hq⟩
    · rintro ⟨pr', hpr', hq⟩
      rcases List.mem_cons.mp hpr' with rfl | hmem
      · exact Or.inl hq
      · exact Or.inr (ih.mpr ⟨pr', hmem, hq⟩)

theorem mem_allPorts_addPortAux {q pp : PortProtocol} :
    ∀ tps : List PortRule, q ∈ allPorts (addPortAux tps pp) → q ∈ allPorts tps ∨ q = pp := by
  intro tps
  induction tps with
  | nil =>
    intro h
    simp [addPortAux, allPorts] at h
    exact Or.inr h
  | cons pr tps ih =>
    intro h
    rw [addPortAux] at h
    split at h
    · simp only [allPorts, List.foldr_cons, List.mem_append] at h ⊢
      rcases h with (h | h) | h
      · exact Or.inl (Or.inl h)
      · simp at h
        exact Or.inr h
      · exact Or.inl (Or.inr h)
    · simp only [allPorts, List.foldr_cons, List.mem_append] at h ⊢
      rcases h with h | h
      · exact Or.inl (Or.inl h)
      · rcases ih h with h | h
        · exact Or.inl (Or.inr h)
        · exact Or.inr h

theorem mem_allPorts_addPort {q pp : PortProtocol} {tps : List PortRule}
    (h : q ∈ allPorts (addPort tps pp)) : q ∈ allPorts tps ∨ q = pp := by
  unfold addPort at h
  split at h
  · exact Or.inl h
  · exact mem_allPorts_addPortAux tps h

theorem mem_allPorts_foldl_addPort {q : PortProtocol} :
    ∀ (pairs : List PortProtocol) (tps : List PortRule),
      q ∈ allPorts (List.foldl addPort tps pairs) → q ∈ allPorts tps ∨ q ∈ pairs := by
  intro pairs
  induction pairs with
  | nil => intro tps h; exact Or.inl h
  | cons pp pairs ih =>
    intro tps h
    rw [List.foldl_cons] at h
    rcases ih _ h with h | h
    · rcases mem_allPorts_addPort h with h | h
      · exact Or.inl h
      · exact Or.inr (by simp [h])
    · exact Or.inr (by simp [h])

theorem ports_ne_nil_addPortAux {pp : PortProtocol} :
    ∀ tps : List PortRule, (∀ pr ∈ tps, pr.Ports ≠ []) →
      ∀ pr ∈ addPortAux tps pp, pr.Ports ≠ [] := by
  intro tps
  induction tps with
  | nil =>
    intro _ pr hpr
    simp [addPortAux] at hpr
    simp [hpr]
  | cons hd tps ih =>
    intro hall pr hpr
    rw [addPortAux] at hpr
    split at hpr
    · rcases List.mem_cons.mp hpr with rfl | hmem
      · simp
      · exact hall pr (by simp [hmem])
    · rcases List.mem_cons.mp hpr with rfl | hmem
      · exact hall pr (by simp)
      · exact ih (fun x hx => hall x (by simp [hx])) pr hmem

theorem ports_ne_nil_foldl_addPort :
    ∀ (pairs : List PortProtocol) (tps : List PortRule), (∀ pr ∈ tps, pr.Ports ≠ []) →
      ∀ pr ∈ List.foldl addPort tps pairs, pr.Ports ≠ [] := by
  intro pairs
  induction pairs with
  | nil => intro tps h; exact h
  | cons pp pairs ih =>
    intro tps h
    rw [List.foldl_cons]
    apply ih
    intro pr hpr
    unfold addPort at hpr
    split at hpr
    · exact h pr hpr
    · exact ports_ne_nil_addPortAux tps h pr hpr

theorem policy_provenance {flows : List ParsedFlow} {ps : List Policy} {p : Policy}
    (h : SynthesizePolicies flows = Except.ok ps) (hp : p ∈ ps) :
    ∃ g ∈ groupFlowsByEndpoint flows, generatePolicyForEndpoint g = some p := by
  unfold SynthesizePolicies at h
  by_cases hf : flows = []
  · simp [hf] at h
  · rw [if_neg hf] at h
    injection h with h
    subst h
    exact List.mem_filterMap.mp hp

/-- C7 (amended): provided no two flows with the same canonical destination
key differ in destination namespace or label list, and no two flows with
the same formatted source-label map differ in source labels, every
`(port, protocol)` entry of every rule of every emitted policy is
witnessed by an input flow that matches the policy selector and namespace,
the rule selector, the entry port string and the effective protocol
exactly.  Without that proviso, canonical-key collisions merge distinct
identities (see the counterexample). -/
theorem minimality_under_collision_freedom :
    ∀ flows : List ParsedFlow,
      (∀ f ∈ flows, ∀ g ∈ flows, keyOfFlow f = keyOfFlow g →
        f.DestNamespace = g.DestNamespace ∧ f.DestLabels = g.DestLabels) →
      (∀ f ∈ flows, ∀ g ∈ flows, fmtLabels f.SourceLabels = fmtLabels g.SourceLabels →
        f.SourceLabels = g.SourceLabels) →
      ∀ ps : List Policy, SynthesizePolicies flows = Except.ok ps →
        ∀ p ∈ ps, ∀ r ∈ p.Spec.Ingress, ∀ pr ∈ r.ToPorts, ∀ pp ∈ pr.Ports,
          ∃ f ∈ flows, f.DestLabels = p.Spec.endpointSelector.MatchLabels ∧
            f.DestNamespace = p.Metadata.Namespace ∧
            r.FromEndpoints.map (fun es => es.MatchLabels) = [f.SourceLabels] ∧
            pp.Port = Nat.repr f.DestPort ∧ pp.Protocol = protoOf f := by
  intro flows hd hs ps h p hp r hr pr hpr pp hpp
  obtain ⟨g, hg, hgen⟩ := policy_provenance h hp
  obtain ⟨-, -, hpeq⟩ := generatePolicyForEndpoint_some hgen
  obtain ⟨f0, hf0mem, hkey, hall⟩ := group_shape hg
  subst hpeq
  simp only at hr hpr hpp ⊢
  obtain ⟨g0, fl, hg0, hallf, hfe, htp⟩ := rule_shape hr
  rw [htp] at hpr
  obtain ⟨pr', hpr', rfl⟩ := List.mem_map.mp hpr
  simp only [List.mem_insertionSort] at hpp
  have hq : pp ∈ allPorts (List.foldl addPort [] (fl.map pairOf)) :=
    (mem_allPorts _).mpr ⟨pr', hpr', hpp⟩
  rcases mem_allPorts_foldl_addPort _ _ hq with hq | hq
  · simp [allPorts] at hq
  · obtain ⟨f, hfmem, hfpp⟩ := List.mem_map.mp hq
    obtain ⟨hfg, hfskip, hfsrc⟩ := hallf f hfmem
    obtain ⟨hfin, -, hfkey⟩ := hall f hfg
    obtain ⟨hg0g, -, -⟩ := hallf g0 hg0
    obtain ⟨hg0in, -, -⟩ := hall g0 hg0g
    obtain ⟨hf0in, -, -⟩ := hall f0 hf0mem
    refine ⟨f, hfin, ?_, ?_, ?_, ?_, ?_⟩
    · rw [hkey]
      exact (hd f hfin f0 hf0in hfkey).2
    · rw [hkey]
      exact (hd f hfin f0 hf0in hfkey).1
    · rw [hfe]
      simp only [List.map_cons, List.map_nil]
      have := hs f hfin g0 hg0in hfsrc
      rw [this]
    · rw [← hfpp]
      rfl
    · rw [← hfpp]
      rfl


set_option maxRecDepth 100000 in
/-- C7 witness: the amended minimality theorem applied to the concrete run
on `[flowA]`, at the single port entry of the single emitted policy. -/
theorem minimality_under_collision_freedom_witness :
    ∃ f ∈ [flowA], f.DestLabels = policyA.Spec.endpointSelector.MatchLabels ∧
      f.DestNamespace = policyA.Metadata.Namespace ∧
      (policyA.Spec.Ingress.headD default).FromEndpoints.map (fun es => es.MatchLabels) =
        [f.SourceLabels] ∧
      (((policyA.Spec.Ingress.headD default).ToPorts.headD default).Ports.headD default).Port =
        Nat.repr f.DestPort ∧
      (((policyA.Spec.Ingress.headD default).ToPorts.headD default).Ports.headD default).Protocol =
        protoOf f :=
  minimality_under_collision_freedom [flowA] (by decide) (by decide) [policyA] rfl
    policyA (by decide) (policyA.Spec.Ingress.headD default) (by decide)
    ((policyA.Spec.Ingress.headD default).ToPorts.headD default) (by decide)
    (((policyA.Spec.Ingress.headD default).ToPorts.headD default).Ports.headD default) (by decide)

/-! ## Validity lemmas for the serializer round trip -/

theorem toDigitsCore_len_ge (b : Nat) :
    ∀ (f n : Nat) (l : List Char), l.length ≤ (Nat.toDigitsCore b f n l).length := by
  intro f
  induction f with
  | zero => intro n l; simp [Nat.toDigitsCore]
  | succ f ih =>
    intro n l
    rw [Nat.toDigitsCore]
    split
    · simp
    · calc l.length ≤ (Nat.digitChar (n % b) :: l).length := by simp
        _ ≤ _ := ih _ _

theorem natRepr_ne_empty (n : Nat) : Nat.repr n ≠ "" := by
  have h1 : 1 ≤ (Nat.toDigitsCore 10 (n + 1) n []).length := by
    rw [Nat.toDigitsCore]
    split
    · simp
    · calc 1 = ([Nat.digitChar (n % 10)] : List Char).length := rfl
        _ ≤ _ := toDigitsCore_len_ge 10 _ _ _
  intro hc
  have := congrArg String.data hc
  simp only [Nat.repr, Nat.toDigits, List.asString] at this
  rw [this] at h1
  simp at h1

theorem string_append_ne_empty (s t : String) (h : t ≠ "") : s ++ t ≠ "" := by
  intro hc
  apply h
  have := congrArg String.data hc
  rw [String.data_append] at this
  exact String.ext (List.append_eq_nil.mp this).2

theorem generatePolicyName_ne_empty (labels : Labels) : generatePolicyName labels ≠ "" := by
  unfold generatePolicyName
  split
  · exact string_append_ne_empty _ _ (by decide)
  · split
    · exact string_append_ne_empty _ _ (by decide)
    · decide

theorem protoOf_tcp_or_udp {f : ParsedFlow}
    (h : f.Protocol = "" ∨ f.Protocol = "TCP" ∨ f.Protocol = "UDP") :
    protoOf f = "TCP" ∨ protoOf f = "UDP" := by
  unfold protoOf
  rcases h with h | h | h <;> simp [h]

theorem sortPairsByKey_eq_nil (l : Labels) : sortPairsByKey l = [] ↔ l = [] := by
  constructor
  · intro h
    have := List.perm_insertionSort (fun p q : String × String => strLeB p.1 q.1) l
    rw [show List.insertionSort (fun p q : String × String => strLeB p.1 q.1) l
      = sortPairsByKey l from rfl, h] at this
    exact this.symm.eq_nil
  · intro h
    rw [h]
    rfl

theorem apiVersionCheck_valid (policy : YDoc) (info : PolicyInfo) :
    (apiVersionCheck policy info).Valid = (info.Valid && (apiErrOf policy).isNone) := by
  unfold apiVersionCheck apiErrOf
  repeat' split
  all_goals simp_all [addErr]

theorem kindCheck_valid (policy : YDoc) (info : PolicyInfo) :
    (kindCheck policy info).Valid = (info.Valid && (kindErrOf policy).isNone) := by
  unfold kindCheck kindErrOf
  repeat' split
  all_goals simp_all [addErr]

theorem metadataCheck_valid (policy : YDoc) (info : PolicyInfo) :
    (metadataCheck policy info).Valid = (info.Valid && (metaErrOf policy).isNone) := by
  unfold metadataCheck metaErrOf
  repeat' split
  all_goals simp_all [addErr]

theorem selectorCheck_valid (sp : YDoc) (info : PolicyInfo) :
    (selectorCheck sp info).Valid = (info.Valid && (selErrOfSpec sp).isNone) := by
  unfold selectorCheck selErrOfSpec
  repeat' split
  all_goals simp_all [addErr]

theorem ingressCheck_valid (sp : YDoc) (info : PolicyInfo) :
    (ingressCheck sp info).Valid =
      (info.Valid && (ingressArrOfSpec sp).enum.all (fun ir => (validateIngressRule ir.2).isNone)) := by
  unfold ingressCheck ingressArrOfSpec
  repeat' split
  all_goals simp_all [ingress_fold_valid]

theorem egressCheck_valid (sp : YDoc) (info : PolicyInfo) :
    (egressCheck sp info).Valid =
      (info.Valid && (egressArrOfSpec sp).enum.all (fun er => (validateEgressRule er.2).isNone)) := by
  unfold egressCheck egressArrOfSpec
  repeat' split
  all_goals simp_all [egress_fold_valid]

theorem specCheck_valid (policy : YDoc) (info : PolicyInfo) :
    (specCheck policy info).Valid =
      (info.Valid && (specErrOf policy).isNone &&
        (ingressArrOf policy).enum.all (fun ir => (validateIngressRule ir.2).isNone) &&
        (egressArrOf policy).enum.all (fun er => (validateEgressRule er.2).isNone)) := by
  unfold specCheck specErrOf ingressArrOf egressArrOf
  repeat' split
  all_goals
    simp_all [addErr, egressCheck_valid, ingressCheck_valid, selectorCheck_valid, Bool.and_assoc]

theorem checkPolicyDoc_valid (policy : YDoc) :
    (checkPolicyDoc policy).Valid =
      ((apiErrOf policy).isNone && (kindErrOf policy).isNone && (metaErrOf policy).isNone &&
        (specErrOf policy).isNone &&
        (ingressArrOf policy).enum.all (fun ir => (validateIngressRule ir.2).isNone) &&
        (egressArrOf policy).enum.all (fun er => (validateEgressRule er.2).isNone)) := by
  unfold checkPolicyDoc
  rw [specCheck_valid, metadataCheck_valid, kindCheck_valid, apiVersionCheck_valid]
  simp [Bool.and_assoc]

theorem validatePortRule_toY {pr : PortRule} (hne : pr.Ports ≠ [])
    (hpp : ∀ pp ∈ pr.Ports, pp.Port ≠ "" ∧ (pp.Protocol = "TCP" ∨ pp.Protocol = "UDP")) :
    validatePortRule (portRuleToY pr) = none := by
  unfold validatePortRule portRuleToY
  simp only [lookupA, ite_true, eq_self_iff_true, if_true]
  rw [if_neg (by simp [List.isEmpty_eq_false, hne])]
  rw [List.findSome?_eq_none_iff]
  intro x hx
  obtain ⟨i, y, hy, rfl⟩ : ∃ i y, y ∈ pr.Ports ∧ x = (i, YVal.map
      [("port", .str y.Port), ("protocol", .str y.Protocol)]) := by
    have hx2 : x.2 ∈ (pr.Ports.map (fun pp =>
        YVal.map [("port", .str pp.Port), ("protocol", .str pp.Protocol)])) := by
      rw [← List.enum_map_snd (pr.Ports.map _)]
      exact List.mem_map_of_mem _ hx
    obtain ⟨y, hy, hxy⟩ := List.mem_map.mp hx2
    exact ⟨x.1, y, hy, by rw [hxy]⟩
  obtain ⟨hport, hproto⟩ := hpp y hy
  simp only [lookupA, ite_true, eq_self_iff_true, if_true]
  rw [if_neg hport]
  simp only [show ¬ ("port" : String) = "protocol" from by decide, if_false,
    lookupA, ite_true, eq_self_iff_true, if_true]
  rcases hproto with h | h <;> rw [h] <;> rfl

theorem checkEndpointsList_single (ls : Labels) (field : String) (h : ls ≠ []) :
    checkEndpointsList field [selectorToY ⟨ls⟩] = none := by
  unfold checkEndpointsList selectorToY labelsToY
  simp only [List.enum, List.findSome?]
  simp [lookupA, List.isEmpty_eq_false, (sortPairsByKey_eq_nil ls).not.mpr h]

theorem validateIngressRule_toY {r : IngressRule}
    (hfe : ∃ ls, r.FromEndpoints = [⟨ls⟩] ∧ ls ≠ [])
    (htp : ∀ pr ∈ r.ToPorts, pr.Ports ≠ [] ∧
      ∀ pp ∈ pr.Ports, pp.Port ≠ "" ∧ (pp.Protocol = "TCP" ∨ pp.Protocol = "UDP")) :
    validateIngressRule (ingressRuleToY r) = none := by
  obtain ⟨ls, hls, hlsne⟩ := hfe
  unfold validateIngressRule ingressRuleToY
  rw [hls]
  rw [if_neg (by simp)]
  have htoPorts : checkToPortsList (r.ToPorts.map portRuleToY) = none := by
    unfold checkToPortsList
    rw [List.findSome?_eq_none_iff]
    intro x hx
    have hx2 : x.2 ∈ r.ToPorts.map portRuleToY := by
      rw [← List.enum_map_snd (r.ToPorts.map portRuleToY)]
      exact List.mem_map_of_mem _ hx
    obtain ⟨pr, hpr, hxpr⟩ := List.mem_map.mp hx2
    obtain ⟨h1, h2⟩ := htp pr hpr
    rw [← hxpr, validatePortRule_toY h1 h2]
    rfl
  by_cases htpe : r.ToPorts = []
  · rw [if_pos htpe]
    simp only [List.map_cons, List.map_nil, List.append_nil, lookupA,
      ite_true, eq_self_iff_true, if_true]
    rw [checkEndpointsList_single ls "fromEndpoints" hlsne]
    simp [lookupA]
  · rw [if_neg htpe]
    simp only [List.map_cons, List.map_nil, List.cons_append, List.nil_append, lookupA,
      ite_true, eq_self_iff_true, if_true]
    rw [checkEndpointsList_single ls "fromEndpoints" hlsne]
    simp only [show ¬ ("fromEndpoints" : String) = "toPorts" from by decide, if_false,
      lookupA, ite_true, eq_self_iff_true, if_true]
    rw [htoPorts]

theorem apiErrOf_policyToYDoc {p : Policy} (h : p.APIVersion = "cilium.io/v2") :
    apiErrOf (policyToYDoc p) = none := by
  unfold apiErrOf policyToYDoc
  simp [lookupA, h]

theorem kindErrOf_policyToYDoc {p : Policy} (h : p.Kind = "CiliumNetworkPolicy") :
    kindErrOf (policyToYDoc p) = none := by
  unfold kindErrOf policyToYDoc
  simp [lookupA, h]

theorem metaErrOf_policyToYDoc {p : Policy} (h : p.Metadata.Name ≠ "") :
    metaErrOf (policyToYDoc p) = none := by
  unfold metaErrOf policyToYDoc
  simp [lookupA, h]

theorem specErrOf_policyToYDoc {p : Policy} (h : p.Spec.endpointSelector.MatchLabels ≠ []) :
    specErrOf (policyToYDoc p) = none := by
  unfold specErrOf policyToYDoc selErrOfSpec selectorToY labelsToY
  simp [lookupA, List.isEmpty_eq_false, (sortPairsByKey_eq_nil _).not.mpr h]

theorem ingressArrOf_policyToYDoc {p : Policy} (h : p.Spec.Ingress ≠ []) :
    ingressArrOf (policyToYDoc p) = p.Spec.Ingress.map ingressRuleToY := by
  unfold ingressArrOf policyToYDoc ingressArrOfSpec
  simp [lookupA, h]

theorem egressArrOf_policyToYDoc {p : Policy} (hin : p.Spec.Ingress ≠ [])
    (heg : p.Spec.Egress = []) :
    egressArrOf (policyToYDoc p) = [] := by
  unfold egressArrOf policyToYDoc egressArrOfSpec
  simp [lookupA, hin, heg]

theorem synthesized_policy_facts {flows : List ParsedFlow} {ps : List Policy} {p : Policy}
    (hproto : ∀ f ∈ flows, f.Protocol = "" ∨ f.Protocol = "TCP" ∨ f.Protocol = "UDP")
    (h : SynthesizePolicies flows = Except.ok ps) (hp : p ∈ ps) :
    p.APIVersion = "cilium.io/v2" ∧ p.Kind = "CiliumNetworkPolicy" ∧
    p.Metadata.Name ≠ "" ∧ p.Spec.endpointSelector.MatchLabels ≠ [] ∧
    p.Spec.Ingress ≠ [] ∧ p.Spec.Egress = [] ∧
    ∀ r ∈ p.Spec.Ingress,
      (∃ ls, r.FromEndpoints = [⟨ls⟩] ∧ ls ≠ []) ∧
      ∀ pr ∈ r.ToPorts, pr.Ports ≠ [] ∧
        ∀ pp ∈ pr.Ports, pp.Port ≠ "" ∧ (pp.Protocol = "TCP" ∨ pp.Protocol = "UDP") := by
  obtain ⟨g, hg, hgen⟩ := policy_provenance h hp
  obtain ⟨-, hrules, hpeq⟩ := generatePolicyForEndpoint_some hgen
  obtain ⟨f0, hf0mem, hkey, hall⟩ := group_shape hg
  subst hpeq
  obtain ⟨-, hf0skip, -⟩ := hall f0 hf0mem
  have hlabels : g.Key.Labels ≠ [] := by
    rw [hkey]
    intro hc
    rw [skipDest] at hf0skip
    simp at hf0skip
    exact hf0skip.2 hc
  refine ⟨rfl, rfl, generatePolicyName_ne_empty _, hlabels, hrules, rfl, ?_⟩
  intro r hr
  simp only at hr
  obtain ⟨g0, fl, hg0, hallf, hfe, htp⟩ := rule_shape hr
  obtain ⟨-, hg0skip, -⟩ := hallf g0 hg0
  constructor
  · refine ⟨g0.SourceLabels, hfe, ?_⟩
    intro hc
    rw [skipSrc] at hg0skip
    simp at hg0skip
    exact hg0skip.1 hc
  · intro pr hpr
    rw [htp] at hpr
    obtain ⟨pr0, hpr0, rfl⟩ := List.mem_map.mp hpr
    have hpr0ne : pr0.Ports ≠ [] :=
      ports_ne_nil_foldl_addPort (fl.map pairOf) [] (by simp) pr0 hpr0
    constructor
    · simp only []
      intro hc
      have := congrArg List.length hc
      rw [List.length_insertionSort] at this
      exact hpr0ne (List.length_eq_zero.mp this)
    · intro pp hpp
      simp only [List.mem_insertionSort] at hpp
      have hq : pp ∈ allPorts (List.foldl addPort [] (fl.map pairOf)) :=
        (mem_allPorts _).mpr ⟨pr0, hpr0, hpp⟩
      rcases mem_allPorts_foldl_addPort _ _ hq with hq | hq
      · simp [allPorts] at hq
      · obtain ⟨f, hfmem, hfpp⟩ := List.mem_map.mp hq
        obtain ⟨hfg, -, -⟩ := hallf f hfmem
        obtain ⟨hfin, -, -⟩ := hall f hfg
        subst hfpp
        exact ⟨natRepr_ne_empty _, protoOf_tcp_or_udp (hproto f hfin)⟩

theorem checkPolicyDoc_of_synthesized {flows : List ParsedFlow} {ps : List Policy} {p : Policy}
    (hproto : ∀ f ∈ flows, f.Protocol = "" ∨ f.Protocol = "TCP" ∨ f.Protocol = "UDP")
    (h : SynthesizePolicies flows = Except.ok ps) (hp : p ∈ ps) :
    (checkPolicyDoc (policyToYDoc p)).Valid = true ∧
      (checkPolicyDoc (policyToYDoc p)).Errors = [] := by
  obtain ⟨hapi, hkind, hname, hsel, hing, heg, hrules⟩ :=
    synthesized_policy_facts hproto h hp
  have hrulesY : ∀ y ∈ p.Spec.Ingress.map ingressRuleToY, validateIngressRule y = none := by
    intro y hy
    obtain ⟨r, hr, rfl⟩ := List.mem_map.mp hy
    exact validateIngressRule_toY (hrules r hr).1 (hrules r hr).2
  have hingErrs : ingressErrsOf (policyToYDoc p) = [] := by
    unfold ingressErrsOf
    rw [ingressArrOf_policyToYDoc hing, List.filterMap_eq_nil_iff]
    intro x hx
    have hx2 : x.2 ∈ p.Spec.Ingress.map ingressRuleToY := by
      rw [← List.enum_map_snd (p.Spec.Ingress.map ingressRuleToY)]
      exact List.mem_map_of_mem _ hx
    rw [hrulesY x.2 hx2]
    rfl
  have hegErrs : egressErrsOf (policyToYDoc p) = [] := by
    unfold egressErrsOf
    rw [egressArrOf_policyToYDoc hing heg]
    rfl
  constructor
  · rw [checkPolicyDoc_valid]
    rw [apiErrOf_policyToYDoc hapi, kindErrOf_policyToYDoc hkind,
      metaErrOf_policyToYDoc hname, specErrOf_policyToYDoc hsel,
      ingressArrOf_policyToYDoc hing, egressArrOf_policyToYDoc hing heg]
    simp only [Option.isNone_none, Bool.true_and, List.enum_nil, List.all_nil, Bool.and_true]
    rw [List.all_eq_true]
    intro x hx
    have hx2 : x.2 ∈ p.Spec.Ingress.map ingressRuleToY := by
      rw [← List.enum_map_snd (p.Spec.Ingress.map ingressRuleToY)]
      exact List.mem_map_of_mem _ hx
    rw [hrulesY x.2 hx2]
    rfl
  · rw [checkPolicyDoc_errors_decomposition, hingErrs, hegErrs]
    unfold topErrsOf
    rw [apiErrOf_policyToYDoc hapi, kindErrOf_policyToYDoc hkind,
      metaErrOf_policyToYDoc hname, specErrOf_policyToYDoc hsel]
    rfl

theorem verify_docs_fold :
    ∀ (docs : List YDoc) (acc : VerificationResult),
      ((docs.foldl (fun acc d => verifyDocStep acc 0 (some d)) acc).Valid =
        (acc.Valid && docs.all (fun d => (checkPolicyDoc d).Valid))) ∧
      ((docs.foldl (fun acc d => verifyDocStep acc 0 (some d)) acc).Errors = acc.Errors) ∧
      ((docs.foldl (fun acc d => verifyDocStep acc 0 (some d)) acc).Policies =
        acc.Policies ++ docs.map checkPolicyDoc) := by
  intro docs
  induction docs with
  | nil => intro acc; simp
  | cons d docs ih =>
    intro acc
    rw [List.foldl_cons]
    refine ⟨?_, ?_, ?_⟩
    · rw [(ih _).1]
      simp [verifyDocStep, Bool.and_assoc]
    · rw [(ih _).2.1]
      simp [verifyDocStep]
    · rw [(ih _).2.2]
      simp [verifyDocStep]

/-- C9: for every non-empty flow set carrying only TCP/UDP or unspecified
protocols for which synthesis emits at least one policy, running the
structural validator on the serialized policies (each document parsed back
through the yaml round trip modelled by `policyToYDoc`) yields an
overall-valid verdict with no errors. -/
theorem serializer_output_validates :
    ∀ (flows : List ParsedFlow) (ps : List Policy),
      (∀ f ∈ flows, f.Protocol = "" ∨ f.Protocol = "TCP" ∨ f.Protocol = "UDP") →
      SynthesizePolicies flows = Except.ok ps → ps ≠ [] →
      (verifyPolicyDocs (ps.map policyToYDoc)).Valid = true ∧
      (verifyPolicyDocs (ps.map policyToYDoc)).Errors = [] := by
  intro flows ps hproto h hne
  unfold verifyPolicyDocs finalizeResult
  have hfold := verify_docs_fold (ps.map policyToYDoc) {}
  have hpols : (List.foldl (fun acc d => verifyDocStep acc 0 (some d)) {}
      (ps.map policyToYDoc)).Policies ≠ [] := by
    rw [hfold.2.2]
    simp [hne]
  rw [if_neg hpols]
  refine ⟨?_, ?_⟩
  · rw [hfold.1]
    simp only [Bool.true_and]
    rw [List.all_eq_true]
    intro y hy
    obtain ⟨p, hp, rfl⟩ := List.mem_map.mp hy
    exact (checkPolicyDoc_of_synthesized hproto h hp).1
  · rw [hfold.2.1]


/-- C9 witness: the theorem applied to the concrete run on `[flowA]`. -/
theorem serializer_output_validates_witness :
    (verifyPolicyDocs ([policyA].map policyToYDoc)).Valid = true ∧
      (verifyPolicyDocs ([policyA].map policyToYDoc)).Errors = [] :=
  serializer_output_validates [flowA] [policyA] (by decide) rfl (by decide)

/-! ## Claim C4 -/

/-- C4: `SynthesizePolicies` applied to an empty flow sequence returns the
`no flows provided` error and no policy list. -/
theorem synthesize_empty_input_errors :
    SynthesizePolicies [] = Except.error "no flows provided" := rfl

/-! ## Claim C10 -/

/-- C10: serializing an empty list of policies is rejected with the
`no policies to write` error; nothing is written. -/
theorem write_empty_policies_rejected :
    WritePoliciesToFile [] = Except.error "no policies to write" := rfl

/-! ## Claim C2 -/

/-- C2 counterexample: `[("y","b"),("x","a")]` and `[("x","a"),("y","b")]`
denote the same label map (and neither contains a preferred key), yet
`generatePolicyName` returns a different name on each, and on the first it
does not return the value of the lexicographically first label `x`. -/
theorem generatePolicyName_not_deterministic :
    eqAsMap [("y", "b"), ("x", "a")] [("x", "a"), ("y", "b")] = true ∧
    sortPairsByKey [("y", "b"), ("x", "a")] = [("x", "a"), ("y", "b")] ∧
    generatePolicyName [("y", "b"), ("x", "a")] = "b-policy" ∧
    generatePolicyName [("x", "a"), ("y", "b")] = "a-policy" ∧
    generatePolicyName [("y", "b"), ("x", "a")] ≠
      generatePolicyName [("x", "a"), ("y", "b")] :=
  ⟨by decide, by decide, by decide, by decide, by decide⟩

/-- C2 (amended): `generatePolicyName` returns the highest-priority
preferred key's value suffixed `-policy` when one exists, the literal
`default-policy` on an empty label map, and otherwise the value of the
first label in map-iteration order suffixed `-policy` — which label that
is depends on the map's iteration order, not only on the label set. -/
theorem generatePolicyName_cases (labels : Labels) :
    generatePolicyName labels =
      match preferredKeys.findSome? (fun k => lookupA labels k) with
      | some v => v ++ "-policy"
      | none =>
        match labels with
        | p :: _ => p.2 ++ "-policy"
        | [] => "default-policy" := by
  unfold generatePolicyName
  rw [findPreferredValue_eq]

/-! ## Claim C5 -/

/-- C5: flows with empty destination labels or namespace contribute to no
authorization unit; flows with empty source labels or port 0 contribute to
no rule; and these exclusions never make synthesis fail (any non-empty
input yields an `ok` result). -/
theorem drop_correctness :
    (∀ flows : List ParsedFlow,
        groupFlowsByEndpoint flows =
          groupFlowsByEndpoint (flows.filter (fun f => !skipDest f))) ∧
    (∀ flows : List ParsedFlow,
        generateIngressRules flows =
          generateIngressRules (flows.filter (fun f => !skipSrc f))) ∧
    ∀ flows : List ParsedFlow, flows ≠ [] →
      ∃ ps, SynthesizePolicies flows = Except.ok ps := by
  refine ⟨?_, ?_, ?_⟩
  · intro flows
    unfold groupFlowsByEndpoint
    rw [foldl_filter_skip]
  · intro flows
    unfold generateIngressRules
    rw [foldl_filter_skip]
  · intro flows h
    refine ⟨(groupFlowsByEndpoint flows).filterMap generatePolicyForEndpoint, ?_⟩
    simp [SynthesizePolicies, h]

/-- C5 witness: the drop-correctness theorem applied at a concrete
non-empty input. -/
theorem drop_correctness_witness :
    ([flowA] : List ParsedFlow) ≠ [] ∧
      ∃ ps, SynthesizePolicies [flowA] = Except.ok ps :=
  ⟨by decide, drop_correctness.2.2 [flowA] (by decide)⟩

/-! ## Claim C6 -/

/-- C6: every policy object emitted by `SynthesizePolicies` has a non-empty
ingress rule list; a unit whose rule derivation yields zero rules produces
no policy at all. -/
theorem no_zero_rule_policy :
    ∀ (flows : List ParsedFlow) (ps : List Policy),
      SynthesizePolicies flows = Except.ok ps →
        ∀ p ∈ ps, p.Spec.Ingress ≠ [] := by
  intro flows ps h p hp
  unfold SynthesizePolicies at h
  by_cases hf : flows = []
  · simp [hf] at h
  · rw [if_neg hf] at h
    injection h with h
    subst h
    obtain ⟨g, _, hgen⟩ := List.mem_filterMap.mp hp
    obtain ⟨-, hrules, hpeq⟩ := generatePolicyForEndpoint_some hgen
    subst hpeq
    simpa using hrules

set_option maxRecDepth 100000 in
/-- C6 witness: the theorem applied to the concrete synthesis run on
`[flowA]`, whose single policy is `policyA`. -/
theorem no_zero_rule_policy_witness : policyA.Spec.Ingress ≠ [] :=
  no_zero_rule_policy [flowA] [policyA] rfl policyA (by decide)

/-! ## Verification-loop lemmas and claim C8 -/

theorem verifyDocStep_policies (acc : VerificationResult) (n : Nat) (parsed : Option YDoc) :
    (verifyDocStep acc n parsed).Policies = acc.Policies ++ [docInfo parsed] := by
  cases parsed <;> simp [verifyDocStep, docInfo]

theorem verifyDocStep_valid (acc : VerificationResult) (n : Nat) (parsed : Option YDoc) :
    (verifyDocStep acc n parsed).Valid = (acc.Valid && (docInfo parsed).Valid) := by
  cases parsed <;> simp [verifyDocStep, docInfo]

theorem verify_fold_policies (parse : String → Option YDoc) :
    ∀ (l : List (Nat × String)) (acc : VerificationResult),
      (l.foldl (fun acc d =>
          if trimSpace d.2 = "" then acc else verifyDocStep acc (d.1 + 1) (parse d.2)) acc).Policies =
        acc.Policies ++
          (l.filter (fun d => !(trimSpace d.2 == ""))).map (fun d => docInfo (parse d.2)) := by
  intro l
  induction l with
  | nil => intro acc; simp
  | cons x l ih =>
    intro acc
    by_cases hx : trimSpace x.2 = "" <;>
      simp [List.foldl_cons, hx, ih, verifyDocStep_policies]

theorem verify_fold_valid (parse : String → Option YDoc) :
    ∀ (l : List (Nat × String)) (acc : VerificationResult),
      (l.foldl (fun acc d =>
          if trimSpace d.2 = "" then acc else verifyDocStep acc (d.1 + 1) (parse d.2)) acc).Valid =
        (acc.Valid &&
          (l.filter (fun d => !(trimSpace d.2 == ""))).all (fun d => (docInfo (parse d.2)).Valid)) := by
  intro l
  induction l with
  | nil => intro acc; simp
  | cons x l ih =>
    intro acc
    by_cases hx : trimSpace x.2 = "" <;>
      simp [List.foldl_cons, hx, ih, verifyDocStep_valid, Bool.and_assoc]

theorem finalizeResult_policies (r : VerificationResult) :
    (finalizeResult r).Policies = r.Policies := by
  unfold finalizeResult; split <;> rfl

theorem exists_enum_snd {α : Type} (l : List α) (P : α → Prop) :
    (∃ x ∈ l.enum, P x.2) ↔ ∃ a ∈ l, P a := by
  constructor
  · rintro ⟨x, hx, hP⟩
    refine ⟨x.2, ?_, hP⟩
    rw [← List.enum_map_snd l]
    exact List.mem_map_of_mem _ hx
  · rintro ⟨a, ha, hP⟩
    rw [← List.enum_map_snd l] at ha
    obtain ⟨x, hx, rfl⟩ := List.mem_map.mp ha
    exact ⟨x, hx, hP⟩

theorem VerifyPolicies_policies (parse : String → Option YDoc) (content : String) :
    (VerifyPolicies parse content).Policies =
      ((splitYAMLDocuments content).enum.filter (fun d => !(trimSpace d.2 == ""))).map
        (fun d => docInfo (parse d.2)) := by
  unfold VerifyPolicies
  rw [finalizeResult_policies, verify_fold_policies]
  rfl

theorem VerifyPolicies_policies_eq_nil (parse : String → Option YDoc) (content : String) :
    (VerifyPolicies parse content).Policies = [] ↔
      ¬ ∃ doc ∈ splitYAMLDocuments content, trimSpace doc ≠ "" := by
  rw [VerifyPolicies_policies, List.map_eq_nil_iff, List.filter_eq_nil_iff,
    ← exists_enum_snd ((splitYAMLDocuments content)) (fun d => trimSpace d ≠ "")]
  simp

theorem exists_nonblank_iff (content : String) :
    (∃ doc ∈ splitYAMLDocuments content, trimSpace doc ≠ "") ↔
      ((splitYAMLDocuments content).enum.filter (fun d => !(trimSpace d.2 == ""))) ≠ [] := by
  rw [Ne, List.filter_eq_nil_iff,
    ← exists_enum_snd (splitYAMLDocuments content) (fun d => trimSpace d ≠ "")]
  constructor
  · rintro ⟨x, hx, hP⟩ h
    exact hP (by simpa using h x hx)
  · intro h
    by_contra hno
    apply h
    intro a ha
    simp only [Bool.not_eq_true', beq_iff_eq]
    by_contra hc
    exact hno ⟨a, ha, by simpa using hc⟩

theorem VerifyPolicies_valid (parse : String → Option YDoc) (content : String) :
    (VerifyPolicies parse content).Valid =
      (!(((splitYAMLDocuments content).enum.filter (fun d => !(trimSpace d.2 == ""))).isEmpty) &&
        ((splitYAMLDocuments content).enum.filter (fun d => !(trimSpace d.2 == ""))).all
          (fun d => (docInfo (parse d.2)).Valid)) := by
  unfold VerifyPolicies finalizeResult
  split
  · rename_i h0
    rw [verify_fold_policies] at h0
    simp only [List.nil_append, List.map_eq_nil_iff] at h0
    simp [h0]
  · rename_i h0
    rw [verify_fold_policies] at h0
    simp only [List.nil_append, List.map_eq_nil_iff] at h0
    rw [verify_fold_valid]
    have : (((splitYAMLDocuments content).enum.filter (fun d => !(trimSpace d.2 == ""))).isEmpty) = false := by
      simpa [List.isEmpty_iff] using h0
    simp [this]

/-- C8: for every input text and every parser, the aggregate verdict of
`VerifyPolicies` is valid iff every per-document result is valid and at
least one non-blank document was found; when zero documents are found the
aggregate is invalid with the file-level error `no valid policies found in
file`. -/
theorem verify_aggregate_verdict (parse : String → Option YDoc) (content : String) :
    ((VerifyPolicies parse content).Valid = true ↔
      ((∀ p ∈ (VerifyPolicies parse content).Policies, p.Valid = true) ∧
        ∃ doc ∈ splitYAMLDocuments content, trimSpace doc ≠ "")) ∧
    ((VerifyPolicies parse content).Policies = [] →
      (VerifyPolicies parse content).Valid = false ∧
        "no valid policies found in file" ∈ (VerifyPolicies parse content).Errors) := by
  have hpol := VerifyPolicies_policies parse content
  have hvalid := VerifyPolicies_valid parse content
  constructor
  · rw [hvalid, hpol, exists_nonblank_iff]
    simp only [Bool.and_eq_true, Bool.not_eq_true, List.all_eq_true, List.mem_map]
    constructor
    · rintro ⟨hne, hall⟩
      refine ⟨?_, ?_⟩
      · rintro p ⟨d, hd, rfl⟩
        exact hall d hd
      · simpa [List.isEmpty_iff] using hne
    · rintro ⟨hall, hne⟩
      refine ⟨?_, ?_⟩
      · simpa [List.isEmpty_iff] using hne
      · intro d hd
        exact hall _ ⟨d, hd, rfl⟩
  · intro hempty
    refine ⟨?_, ?_⟩
    · rw [hvalid]
      rw [hpol, List.map_eq_nil_iff] at hempty
      simp [hempty]
    · unfold VerifyPolicies at hempty ⊢
      rw [finalizeResult_policies] at hempty
      unfold finalizeResult
      rw [if_pos hempty]
      simp


/-- C8 witness: the aggregate-verdict theorem applied to empty content
(zero documents found) with a trivial parser. -/
theorem verify_aggregate_verdict_witness :
    (VerifyPolicies (fun _ => none) "").Valid = false ∧
      "no valid policies found in file" ∈ (VerifyPolicies (fun _ => none) "").Errors :=
  (verify_aggregate_verdict (fun _ => none) "").2 (by decide)

/-! ## String order algebra and permutation invariance of synthesis -/

theorem char_toNat_inj {c d : Char} (h : c.toNat = d.toNat) : c = d :=
  Char.ext (UInt32.ext h)

theorem lexLt_asymm : ∀ a b : List Char, lexLt a b = true → lexLt b a = false := by
  intro a
  induction a with
  | nil =>
    intro b h
    cases b <;> simp [lexLt]
  | cons x xs ih =>
    intro b h
    cases b with
    | nil => simp [lexLt] at h
    | cons y ys =>
      rw [lexLt] at h ⊢
      by_cases hxy : x = y
      · subst hxy
        simp only [if_pos rfl] at h ⊢
        exact ih ys h
      · rw [if_neg hxy] at h
        rw [if_neg (fun hc => hxy hc.symm)]
        simp only [decide_eq_true_eq] at h
        simp [Nat.not_lt.mpr (Nat.le_of_lt h)]

theorem lexLe_eq_not_lexLt : ∀ a b : List Char, lexLe a b = !lexLt b a := by
  intro a
  induction a with
  | nil =>
    intro b
    cases b <;> simp [lexLe, lexLt]
  | cons x xs ih =>
    intro b
    cases b with
    | nil => simp [lexLe, lexLt]
    | cons y ys =>
      rw [lexLe, lexLt]
      by_cases hxy : x = y
      · subst hxy
        simp only [if_pos rfl]
        exact ih ys
      · rw [if_neg hxy, if_neg (fun hc => hxy hc.symm)]
        have : x.toNat ≠ y.toNat := fun hc => hxy (char_toNat_inj hc)
        rcases Nat.lt_or_ge x.toNat y.toNat with hlt | hge
        · simp [hlt, Nat.not_lt.mpr (Nat.le_of_lt hlt)]
        · have hgt : y.toNat < x.toNat := Nat.lt_of_le_of_ne hge (fun hc => this hc.symm)
          simp [hgt, Nat.not_lt.mpr (Nat.le_of_lt hgt)]

theorem lexLe_total (a b : List Char) : lexLe a b = true ∨ lexLe b a = true := by
  rw [lexLe_eq_not_lexLt, lexLe_eq_not_lexLt]
  cases h : lexLt b a
  · simp
  · right
    rw [lexLt_asymm b a h]
    rfl

theorem lexLe_antisymm : ∀ a b : List Char, lexLe a b = true → lexLe b a = true → a = b := by
  intro a
  induction a with
  | nil =>
    intro b h1 h2
    cases b with
    | nil => rfl
    | cons y ys => simp [lexLe] at h2
  | cons x xs ih =>
    intro b h1 h2
    cases b with
    | nil => simp [lexLe] at h1
    | cons y ys =>
      rw [lexLe] at h1 h2
      by_cases hxy : x = y
      · subst hxy
        rw [if_pos rfl] at h1 h2
        rw [ih ys h1 h2]
      · rw [if_neg hxy] at h1
        rw [if_neg (fun hc => hxy hc.symm)] at h2
        simp only [decide_eq_true_eq] at h1 h2
        exact absurd h2 (Nat.not_lt.mpr (Nat.le_of_lt h1))

theorem lexLe_trans : ∀ a b c : List Char,
    lexLe a b = true → lexLe b c = true → lexLe a c = true := by
  intro a
  induction a with
  | nil => intro b c _ _; cases c <;> simp [lexLe]
  | cons x xs ih =>
    intro b c h1 h2
    cases b with
    | nil => simp [lexLe] at h1
    | cons y ys =>
      cases c with
      | nil => simp [lexLe] at h2
      | cons z zs =>
        rw [lexLe] at h1 h2 ⊢
        by_cases hxy : x = y
        · subst hxy
          rw [if_pos rfl] at h1
          by_cases hyz : x = z
          · subst hyz
            rw [if_pos rfl] at h2 ⊢
            exact ih ys zs h1 h2
          · rw [if_neg hyz] at h2 ⊢
            exact h2
        · rw [if_neg hxy] at h1
          simp only [decide_eq_true_eq] at h1
          by_cases hyz : y = z
          · subst hyz
            rw [if_neg hxy]
            simp [h1]
          · rw [if_neg hyz] at h2
            simp only [decide_eq_true_eq] at h2
            have hxz : x.toNat < z.toNat := Nat.lt_trans h1 h2
            have : x ≠ z := fun hc => by
              subst hc
              exact Nat.lt_irrefl _ (Nat.lt_trans h1 h2)
            rw [if_neg this]
            simp [hxz]

theorem strLeB_total (a b : String) : strLeB a b = true ∨ strLeB b a = true :=
  lexLe_total a.data b.data

theorem strLeB_trans {a b c : String} (h1 : strLeB a b = true) (h2 : strLeB b c = true) :
    strLeB a c = true :=
  lexLe_trans a.data b.data c.data h1 h2

theorem strLeB_antisymm {a b : String} (h1 : strLeB a b = true) (h2 : strLeB b a = true) :
    a = b :=
  String.ext (lexLe_antisymm a.data b.data h1 h2)

theorem strLtB_asymm {a b : String} (h : strLtB a b = true) : strLtB b a = false :=
  lexLt_asymm a.data b.data h

theorem strLeB_eq_not_strLtB (a b : String) : strLeB a b = !strLtB b a :=
  lexLe_eq_not_lexLt a.data b.data

theorem strLtB_iff_not_strLeB (a b : String) : strLtB a b = !strLeB b a := by
  rw [strLeB_eq_not_strLtB]
  simp

instance : IsTotal PortProtocol lePP :=
  ⟨fun p q => strLeB_total p.Port q.Port⟩

instance : IsTrans PortProtocol lePP :=
  ⟨fun _ _ _ h1 h2 => strLeB_trans h1 h2⟩

instance : IsTotal IngressRule leRule :=
  ⟨fun r s => strLeB_total (ruleSortKey r) (ruleSortKey s)⟩

instance : IsTrans IngressRule leRule :=
  ⟨fun _ _ _ h1 h2 => strLeB_trans h1 h2⟩

theorem leGroup_of_le {g h : EndpointFlows}
    (hns : strLeB g.Key.Namespace h.Key.Namespace = true)
    (hcase : g.Key.Namespace = h.Key.Namespace →
      strLeB (fmtLabels g.Key.Labels) (fmtLabels h.Key.Labels) = true) :
    leGroup g h := by
  by_cases he : g.Key.Namespace = h.Key.Namespace
  · exact Or.inr ⟨he, hcase he⟩
  · left
    rw [strLtB_iff_not_strLeB]
    cases hle : strLeB h.Key.Namespace g.Key.Namespace
    · rfl
    · exact absurd (strLeB_antisymm hle hns) (fun hc => he hc.symm)

instance : IsTotal EndpointFlows leGroup := by
  refine ⟨fun g h => ?_⟩
  rcases strLeB_total g.Key.Namespace h.Key.Namespace with hns | hns
  · by_cases he : g.Key.Namespace = h.Key.Namespace
    · rcases strLeB_total (fmtLabels g.Key.Labels) (fmtLabels h.Key.Labels) with hf | hf
      · exact Or.inl (Or.inr ⟨he, hf⟩)
      · exact Or.inr (Or.inr ⟨he.symm, hf⟩)
    · exact Or.inl (leGroup_of_le hns (fun hc => absurd hc he))
  · by_cases he : h.Key.Namespace = g.Key.Namespace
    · rcases strLeB_total (fmtLabels g.Key.Labels) (fmtLabels h.Key.Labels) with hf | hf
      · exact Or.inl (Or.inr ⟨he.symm, hf⟩)
      · exact Or.inr (Or.inr ⟨he, hf⟩)
    · exact Or.inr (leGroup_of_le hns (fun hc => absurd hc he))

theorem strLtB_true_iff {a b : String} : strLtB a b = true ↔ ¬ strLeB b a = true := by
  rw [strLtB_iff_not_strLeB]
  cases strLeB b a <;> simp

instance : IsTrans EndpointFlows leGroup := by
  refine ⟨fun a b c h1 h2 => ?_⟩
  rcases h1 with h1 | ⟨he1, hf1⟩
  · rcases h2 with h2 | ⟨he2, hf2⟩
    · left
      rw [strLtB_true_iff] at h1 h2 ⊢
      intro hca
      rcases strLeB_total b.Key.Namespace c.Key.Namespace with hbc | hcb
      · exact h1 (strLeB_trans hbc hca)
      · exact h2 hcb
    · left
      rw [← he2]
      exact h1
  · rcases h2 with h2 | ⟨he2, hf2⟩
    · left
      rw [he1]
      exact h2
    · exact Or.inr ⟨he1.trans he2, strLeB_trans hf1 hf2⟩

theorem perm_sorted_eq {β : Type} {r : β → β → Prop} :
    ∀ l1 l2 : List β, l1.Perm l2 → l1.Sorted r → l2.Sorted r →
      (∀ a ∈ l1, ∀ b ∈ l1, r a b → r b a → a = b) → l1 = l2 := by
  intro l1
  induction l1 with
  | nil =>
    intro l2 hperm _ _ _
    exact (List.Perm.eq_nil hperm.symm).symm
  | cons a t1 ih =>
    intro l2 hperm hs1 hs2 hanti
    cases l2 with
    | nil => exact absurd (List.Perm.eq_nil hperm) (by simp)
    | cons b t2 =>
      have hab : a = b := by
        have ha2 : a ∈ b :: t2 := hperm.subset (by simp)
        have hb1 : b ∈ a :: t1 := hperm.symm.subset (by simp)
        rcases List.mem_cons.mp ha2 with h | ha2
        · exact h
        · rcases List.mem_cons.mp hb1 with h | hb1
          · exact h.symm
          · have hrab : r a b := List.rel_of_sorted_cons hs1 b hb1
            have hrba : r b a := List.rel_of_sorted_cons hs2 a ha2
            exact hanti a (by simp) b (by simp [hb1]) hrab hrba
      subst hab
      have htperm : t1.Perm t2 := (List.perm_cons a).mp hperm
      rw [ih t2 htperm hs1.of_cons hs2.of_cons
        (fun x hx y hy h1 h2 => hanti x (by simp [hx]) y (by simp [hy]) h1 h2)]

theorem sorted_filterMap {α β : Type} {r : α → α → Prop} {q : β → β → Prop}
    (f : α → Option β)
    (hpres : ∀ a b pa pb, r a b → f a = some pa → f b = some pb → q pa pb) :
    ∀ l : List α, l.Sorted r → (l.filterMap f).Sorted q := by
  intro l
  induction l with
  | nil => intro _; simp
  | cons a t ih =>
    intro hs
    rw [List.filterMap_cons]
    cases hf : f a with
    | none => exact ih hs.of_cons
    | some pa =>
      rw [List.sorted_cons]
      refine ⟨?_, ih hs.of_cons⟩
      intro pb hpb
      obtain ⟨b, hb, hfb⟩ := List.mem_filterMap.mp hpb
      exact hpres a b pa pb (List.rel_of_sorted_cons hs b hb) hf hfb

theorem lexLe_refl : ∀ a : List Char, lexLe a a = true := by
  intro a
  induction a with
  | nil => rfl
  | cons x xs ih => rw [lexLe, if_pos rfl]; exact ih

theorem strLeB_refl (a : String) : strLeB a a = true := lexLe_refl a.data

theorem strLtB_irrefl (a : String) : strLtB a a = false := by
  have h := strLeB_eq_not_strLtB a a
  rw [strLeB_refl] at h
  cases hx : strLtB a a
  · rfl
  · rw [hx] at h; simp at h

theorem dedupF_perm {α : Type} [DecidableEq α] {l1 l2 : List α} (h : l1.Perm l2) :
    (dedupF l1).Perm (dedupF l2) := by
  rw [List.perm_ext_iff_of_nodup (nodup_dedupF l1) (nodup_dedupF l2)]
  intro a
  rw [mem_dedupF, mem_dedupF]
  exact h.mem_iff

theorem mem_addQ {x q : PortProtocol} {acc : List PortProtocol} :
    x ∈ addQ acc q ↔ x ∈ acc ∨ x = q := by
  unfold addQ
  by_cases h : q ∈ acc
  · rw [if_pos h]
    constructor
    · exact Or.inl
    · rintro (hx | rfl)
      · exact hx
      · exact h
  · rw [if_neg h]
    simp

theorem nodup_addQ {q : PortProtocol} {acc : List PortProtocol} (h : acc.Nodup) :
    (addQ acc q).Nodup := by
  unfold addQ
  by_cases hm : q ∈ acc
  · rw [if_pos hm]; exact h
  · rw [if_neg hm]
    exact List.Nodup.append h (List.nodup_singleton q) (by simpa using hm)

theorem addQ_ne_nil {q : PortProtocol} {acc : List PortProtocol} : addQ acc q ≠ [] := by
  unfold addQ
  by_cases hm : q ∈ acc
  · rw [if_pos hm]
    intro hc
    rw [hc] at hm
    exact absurd hm (List.not_mem_nil q)
  · rw [if_neg hm]
    simp

theorem mem_foldl_addQ {x : PortProtocol} :
    ∀ (l acc : List PortProtocol), x ∈ List.foldl addQ acc l ↔ x ∈ acc ∨ x ∈ l := by
  intro l
  induction l with
  | nil => intro acc; simp
  | cons q l ih =>
    intro acc
    rw [List.foldl_cons, ih, mem_addQ]
    constructor
    · rintro ((h | h) | h)
      · exact Or.inl h
      · exact Or.inr (by simp [h])
      · exact Or.inr (by simp [h])
    · rintro (h | h)
      · exact Or.inl (Or.inl h)
      · rcases List.mem_cons.mp h with h | h
        · exact Or.inl (Or.inr h)
        · exact Or.inr h

theorem nodup_foldl_addQ :
    ∀ (l acc : List PortProtocol), acc.Nodup → (List.foldl addQ acc l).Nodup := by
  intro l
  induction l with
  | nil => intro acc h; exact h
  | cons q l ih =>
    intro acc h
    rw [List.foldl_cons]
    exact ih _ (nodup_addQ h)

theorem foldl_addQ_ne_nil :
    ∀ (l acc : List PortProtocol), acc ≠ [] → List.foldl addQ acc l ≠ [] := by
  intro l
  induction l with
  | nil => intro acc h; exact h
  | cons q l ih =>
    intro acc _
    rw [List.foldl_cons]
    exact ih _ addQ_ne_nil

theorem addPort_single {ps0 : List PortProtocol} {pp : PortProtocol} (h0 : ps0 ≠ [])
    (hall : ∀ q ∈ ps0, q.Protocol = "TCP") (hpp : pp.Protocol = "TCP") :
    addPort [⟨ps0⟩] pp = [⟨addQ ps0 pp⟩] := by
  unfold addPort addQ
  have hap : allPorts [⟨ps0⟩] = ps0 := by simp [allPorts]
  rw [hap]
  by_cases hm : pp ∈ ps0
  · rw [if_pos hm, if_pos hm]
  · rw [if_neg hm, if_neg hm]
    show addPortAux [⟨ps0⟩] pp = _
    rw [addPortAux]
    have hh : (ps0.headD ⟨"", ""⟩).Protocol = pp.Protocol := by
      cases ps0 with
      | nil => exact absurd rfl h0
      | cons a l =>
        rw [hpp]
        exact hall a (by simp)
    rw [if_pos ⟨h0, hh⟩]

theorem foldl_addPort_single :
    ∀ (pairs : List PortProtocol) (ps0 : List PortProtocol), ps0 ≠ [] →
      (∀ q ∈ ps0, q.Protocol = "TCP") → (∀ q ∈ pairs, q.Protocol = "TCP") →
      List.foldl addPort [⟨ps0⟩] pairs = [⟨List.foldl addQ ps0 pairs⟩] := by
  intro pairs
  induction pairs with
  | nil => intro ps0 _ _ _; rfl
  | cons pp pairs ih =>
    intro ps0 h0 hall hp
    rw [List.foldl_cons, List.foldl_cons,
      addPort_single h0 hall (hp pp (by simp))]
    refine ih (addQ ps0 pp) addQ_ne_nil ?_ (fun q hq => hp q (by simp [hq]))
    intro q hq
    rcases mem_addQ.mp hq with h | rfl
    · exact hall q h
    · exact hp q (by simp)

theorem foldl_addPort_tcp :
    ∀ pairs : List PortProtocol, pairs ≠ [] → (∀ q ∈ pairs, q.Protocol = "TCP") →
      ∃ P : List PortProtocol, List.foldl addPort [] pairs = [⟨P⟩] ∧ P.Nodup ∧
        ∀ q : PortProtocol, q ∈ P ↔ q ∈ pairs := by
  intro pairs hne hp
  obtain ⟨p0, rest, rfl⟩ : ∃ p0 rest, pairs = p0 :: rest := by
    cases pairs with
    | nil => exact absurd rfl hne
    | cons p0 rest => exact ⟨p0, rest, rfl⟩
  have h1 : addPort [] p0 = [⟨[p0]⟩] := by
    unfold addPort
    rw [if_neg (by simp [allPorts])]
    rfl
  refine ⟨List.foldl addQ [p0] rest, ?_, ?_, ?_⟩
  · rw [List.foldl_cons, h1,
      foldl_addPort_single rest [p0] (by simp)
        (by intro x hx; simp at hx; rw [hx]; exact hp p0 (by simp))
        (fun q hq => hp q (by simp [hq]))]
  · exact nodup_foldl_addQ rest [p0] (List.nodup_singleton p0)
  · intro q
    rw [mem_foldl_addQ]
    simp

theorem toPorts_tcp_eq {pairs1 pairs2 : List PortProtocol} (hperm : pairs1.Perm pairs2)
    (hne : pairs1 ≠ []) (h : ∀ q ∈ pairs1, q.Protocol = "TCP") :
    (List.foldl addPort [] pairs1).map
        (fun pr => (⟨pr.Ports.insertionSort lePP⟩ : PortRule)) =
      (List.foldl addPort [] pairs2).map (fun pr => ⟨pr.Ports.insertionSort lePP⟩) := by
  obtain ⟨P1, h1, hn1, hm1⟩ := foldl_addPort_tcp pairs1 hne h
  obtain ⟨P2, h2, hn2, hm2⟩ := foldl_addPort_tcp pairs2
    (fun hc => hne (List.Perm.eq_nil (hc ▸ hperm)))
    (fun q hq => h q (hperm.symm.subset hq))
  rw [h1, h2]
  simp only [List.map_cons, List.map_nil]
  have hPperm : P1.Perm P2 := by
    rw [List.perm_ext_iff_of_nodup hn1 hn2]
    intro q
    rw [hm1, hm2]
    exact hperm.mem_iff
  have hsorted : P1.insertionSort lePP = P2.insertionSort lePP := by
    apply perm_sorted_eq _ _
      (((List.perm_insertionSort lePP P1).trans hPperm).trans
        (List.perm_insertionSort lePP P2).symm)
      (List.sorted_insertionSort lePP P1) (List.sorted_insertionSort lePP P2)
    intro a ha b hb hab hba
    have haP : a ∈ pairs1 := (hm1 a).mp ((List.mem_insertionSort lePP).mp ha)
    have hbP : b ∈ pairs1 := (hm1 b).mp ((List.mem_insertionSort lePP).mp hb)
    have hat := h a haP
    have hbt := h b hbP
    unfold lePP at hab hba
    have hport : a.Port = b.Port := strLeB_antisymm hab hba
    cases a
    cases b
    simp_all
  rw [hsorted]

theorem gval_rule_eq {k : String} {ul1 ul2 : List ParsedFlow} (hperm : ul1.Perm ul2)
    (hk : k ∈ ul1.map srcKeyOf)
    (htcp : ∀ f ∈ ul1, protoOf f = "TCP")
    (hs : ∀ f ∈ ul1, ∀ g ∈ ul1, srcKeyOf f = srcKeyOf g → f.SourceLabels = g.SourceLabels) :
    sortRulePorts (gval srcKeyOf baseRule updRule k ul1) =
      sortRulePorts (gval srcKeyOf baseRule updRule k ul2) := by
  rw [gval_rule, gval_rule]
  unfold sortRulePorts
  set fil1 := ul1.filter (fun x => srcKeyOf x == k) with hf1
  set fil2 := ul2.filter (fun x => srcKeyOf x == k) with hf2
  have hfperm : fil1.Perm fil2 := hperm.filter _
  have hne1 : fil1 ≠ [] := (filter_key_ne_nil srcKeyOf k ul1).mpr hk
  obtain ⟨c1, cs1, hc1⟩ : ∃ c cs, fil1 = c :: cs := by
    cases hcc : fil1 with
    | nil => exact absurd hcc hne1
    | cons c cs => exact ⟨c, cs, rfl⟩
  obtain ⟨c2, cs2, hc2⟩ : ∃ c cs, fil2 = c :: cs := by
    cases hcc : fil2 with
    | nil =>
      exact absurd (List.Perm.eq_nil (hcc ▸ hfperm.symm).symm) hne1
    | cons c cs => exact ⟨c, cs, rfl⟩
  have hc1f : c1 ∈ fil1 := by rw [hc1]; simp
  have hc2f : c2 ∈ fil2 := by rw [hc2]; simp
  have hc1u : c1 ∈ ul1 := (List.mem_filter.mp hc1f).1
  have hc2u : c2 ∈ ul1 := hperm.symm.subset (List.mem_filter.mp hc2f).1
  have hk1 : srcKeyOf c1 = k := eq_of_beq (List.mem_filter.mp hc1f).2
  have hk2 : srcKeyOf c2 = k := eq_of_beq (List.mem_filter.mp hc2f).2
  have hfe : (fil1.headD default).SourceLabels = (fil2.headD default).SourceLabels := by
    rw [hc1, hc2]
    exact hs c1 hc1u c2 hc2u (hk1.trans hk2.symm)
  have htcp' : ∀ q ∈ fil1.map pairOf, q.Protocol = "TCP" := by
    intro q hq
    obtain ⟨f, hf, rfl⟩ := List.mem_map.mp hq
    exact htcp f (List.mem_filter.mp hf).1
  have hnem : fil1.map pairOf ≠ [] := by rw [hc1]; simp
  have htp := toPorts_tcp_eq (hfperm.map pairOf) hnem htcp'
  dsimp only
  rw [hfe, htp]

theorem ruleSortKey_gval {k : String} {ul : List ParsedFlow} (hk : k ∈ ul.map srcKeyOf) :
    ruleSortKey (sortRulePorts (gval srcKeyOf baseRule updRule k ul)) = k := by
  rw [gval_rule]
  have hne : ul.filter (fun x => srcKeyOf x == k) ≠ [] :=
    (filter_key_ne_nil srcKeyOf k ul).mpr hk
  obtain ⟨c, cs, hc⟩ : ∃ c cs, ul.filter (fun x => srcKeyOf x == k) = c :: cs := by
    cases hcc : ul.filter (fun x => srcKeyOf x == k) with
    | nil => exact absurd hcc hne
    | cons c cs => exact ⟨c, cs, rfl⟩
  have hck : srcKeyOf c = k := by
    have : c ∈ ul.filter (fun x => srcKeyOf x == k) := by rw [hc]; simp
    simpa using (List.mem_filter.mp this).2
  rw [hc]
  unfold sortRulePorts ruleSortKey
  simpa [srcKeyOf] using hck

theorem generateIngressRules_perm {fl1 fl2 : List ParsedFlow} (hperm : fl1.Perm fl2)
    (htcp : ∀ f ∈ fl1, protoOf f = "TCP")
    (hs : ∀ f ∈ fl1, ∀ g ∈ fl1, srcKeyOf f = srcKeyOf g → f.SourceLabels = g.SourceLabels) :
    generateIngressRules fl1 = generateIngressRules fl2 := by
  rw [generateIngressRules_char, generateIngressRules_char]
  set ul1 := fl1.filter (fun f => !skipSrc f) with hu1
  set ul2 := fl2.filter (fun f => !skipSrc f) with hu2
  have huperm : ul1.Perm ul2 := hperm.filter _
  have hdperm : (dedupF (ul1.map srcKeyOf)).Perm (dedupF (ul2.map srcKeyOf)) :=
    dedupF_perm (huperm.map _)
  have htcp1 : ∀ f ∈ ul1, protoOf f = "TCP" :=
    fun f hf => htcp f (List.mem_filter.mp (hu1 ▸ hf)).1
  have hs1 : ∀ f ∈ ul1, ∀ g ∈ ul1, srcKeyOf f = srcKeyOf g → f.SourceLabels = g.SourceLabels :=
    fun f hf g hg => hs f (List.mem_filter.mp (hu1 ▸ hf)).1 g (List.mem_filter.mp (hu1 ▸ hg)).1
  have hfun : ∀ k ∈ dedupF (ul2.map srcKeyOf),
      sortRulePorts (gval srcKeyOf baseRule updRule k ul1) =
        sortRulePorts (gval srcKeyOf baseRule updRule k ul2) := by
    intro k hk
    have hk1 : k ∈ ul1.map srcKeyOf :=
      ((huperm.map srcKeyOf).mem_iff).mpr ((mem_dedupF _ _).mp hk)
    exact gval_rule_eq huperm hk1 htcp1 hs1
  have hmapeq :
      ((dedupF (ul2.map srcKeyOf)).map
        (fun k => sortRulePorts (gval srcKeyOf baseRule updRule k ul1))) =
      ((dedupF (ul2.map srcKeyOf)).map
        (fun k => sortRulePorts (gval srcKeyOf baseRule updRule k ul2))) :=
    List.map_congr_left hfun
  have hLperm :
      ((dedupF (ul1.map srcKeyOf)).map
        (fun k => sortRulePorts (gval srcKeyOf baseRule updRule k ul1))).Perm
      ((dedupF (ul2.map srcKeyOf)).map
        (fun k => sortRulePorts (gval srcKeyOf baseRule updRule k ul2))) :=
    hmapeq ▸ hdperm.map _
  apply perm_sorted_eq _ _
    (((List.perm_insertionSort leRule _).trans hLperm).trans
      (List.perm_insertionSort leRule _).symm)
    (List.sorted_insertionSort leRule _) (List.sorted_insertionSort leRule _)
  intro a ha b hb hab hba
  have haL := (List.mem_insertionSort leRule).mp ha
  have hbL := (List.mem_insertionSort leRule).mp hb
  obtain ⟨ka, hka, rfl⟩ := List.mem_map.mp haL
  obtain ⟨kb, hkb, rfl⟩ := List.mem_map.mp hbL
  have hka1 : ka ∈ ul1.map srcKeyOf := (mem_dedupF _ _).mp hka
  have hkb1 : kb ∈ ul1.map srcKeyOf := (mem_dedupF _ _).mp hkb
  unfold leRule at hab hba
  have heq : ka = kb := by
    have h1 := ruleSortKey_gval hka1
    have h2 := ruleSortKey_gval hkb1
    rw [h1, h2] at hab hba
    exact strLeB_antisymm hab hba
  rw [heq]

theorem generatePolicyForEndpoint_eq (g : EndpointFlows) :
    generatePolicyForEndpoint g =
      if g.Flows = [] then none
      else if generateIngressRules g.Flows = [] then none
      else
        some
          { APIVersion := "cilium.io/v2"
            Kind := "CiliumNetworkPolicy"
            Metadata := { Name := generatePolicyName g.Key.Labels, Namespace := g.Key.Namespace }
            Spec :=
              { endpointSelector := ⟨g.Key.Labels⟩
                Ingress := generateIngressRules g.Flows } } := rfl

theorem genPol_gval_eq {k : String} {gl1 gl2 : List ParsedFlow} (hperm : gl1.Perm gl2)
    (hk : k ∈ gl1.map keyOfFlow)
    (htcp : ∀ f ∈ gl1, protoOf f = "TCP")
    (hd : ∀ f ∈ gl1, ∀ g ∈ gl1, keyOfFlow f = keyOfFlow g →
      f.DestNamespace = g.DestNamespace ∧ f.DestLabels = g.DestLabels)
    (hs : ∀ f ∈ gl1, ∀ g ∈ gl1, srcKeyOf f = srcKeyOf g → f.SourceLabels = g.SourceLabels) :
    generatePolicyForEndpoint (gval keyOfFlow baseGroup updGroup k gl1) =
      generatePolicyForEndpoint (gval keyOfFlow baseGroup updGroup k gl2) := by
  rw [gval_group, gval_group]
  set fil1 := gl1.filter (fun x => keyOfFlow x == k) with hf1
  set fil2 := gl2.filter (fun x => keyOfFlow x == k) with hf2
  have hfperm : fil1.Perm fil2 := hperm.filter _
  have hne1 : fil1 ≠ [] := (filter_key_ne_nil keyOfFlow k gl1).mpr hk
  have hne2 : fil2 ≠ [] := fun hcn => hne1 (List.Perm.eq_nil (hcn ▸ hfperm))
  obtain ⟨c1, cs1, hc1⟩ : ∃ c cs, fil1 = c :: cs := by
    cases hcc : fil1 with
    | nil => exact absurd hcc hne1
    | cons c cs => exact ⟨c, cs, rfl⟩
  obtain ⟨c2, cs2, hc2⟩ : ∃ c cs, fil2 = c :: cs := by
    cases hcc : fil2 with
    | nil => exact absurd hcc hne2
    | cons c cs => exact ⟨c, cs, rfl⟩
  have hc1f : c1 ∈ fil1 := by rw [hc1]; simp
  have hc2f : c2 ∈ fil2 := by rw [hc2]; simp
  have hc1u : c1 ∈ gl1 := (List.mem_filter.mp hc1f).1
  have hc2u : c2 ∈ gl1 := hperm.symm.subset (List.mem_filter.mp hc2f).1
  have hk1 : keyOfFlow c1 = k := eq_of_beq (List.mem_filter.mp hc1f).2
  have hk2 : keyOfFlow c2 = k := eq_of_beq (List.mem_filter.mp hc2f).2
  have hdd := hd c1 hc1u c2 hc2u (hk1.trans hk2.symm)
  have hns : (fil1.headD default).DestNamespace = (fil2.headD default).DestNamespace := by
    rw [hc1, hc2]
    exact hdd.1
  have hlb : (fil1.headD default).DestLabels = (fil2.headD default).DestLabels := by
    rw [hc1, hc2]
    exact hdd.2
  have htcpf : ∀ f ∈ fil1, protoOf f = "TCP" := fun f hf => htcp f (List.mem_filter.mp hf).1
  have hsf : ∀ f ∈ fil1, ∀ g ∈ fil1, srcKeyOf f = srcKeyOf g → f.SourceLabels = g.SourceLabels :=
    fun f hf g hg => hs f (List.mem_filter.mp hf).1 g (List.mem_filter.mp hg).1
  have hrules : generateIngressRules fil1 = generateIngressRules fil2 :=
    generateIngressRules_perm hfperm htcpf hsf
  rw [generatePolicyForEndpoint_eq, generatePolicyForEndpoint_eq]
  dsimp only
  rw [if_neg hne1, if_neg hne2, hrules, hns, hlb]

theorem gval_group_head {k : String} {gl : List ParsedFlow} (hk : k ∈ gl.map keyOfFlow) :
    ∃ c, c ∈ gl ∧ keyOfFlow c = k ∧
      (gval keyOfFlow baseGroup updGroup k gl).Key = ⟨c.DestNamespace, c.DestLabels⟩ := by
  have hne : gl.filter (fun x => keyOfFlow x == k) ≠ [] :=
    (filter_key_ne_nil keyOfFlow k gl).mpr hk
  obtain ⟨c, cs, hc⟩ : ∃ c cs, gl.filter (fun x => keyOfFlow x == k) = c :: cs := by
    cases hcc : gl.filter (fun x => keyOfFlow x == k) with
    | nil => exact absurd hcc hne
    | cons c cs => exact ⟨c, cs, rfl⟩
  have hcf : c ∈ gl.filter (fun x => keyOfFlow x == k) := by rw [hc]; simp
  refine ⟨c, (List.mem_filter.mp hcf).1, eq_of_beq (List.mem_filter.mp hcf).2, ?_⟩
  rw [gval_group, hc]
  rfl

theorem genPol_polLe {g h : EndpointFlows} {p q : Policy} (hle : leGroup g h)
    (hp : generatePolicyForEndpoint g = some p) (hq : generatePolicyForEndpoint h = some q) :
    polLe p q := by
  obtain ⟨-, -, rfl⟩ := generatePolicyForEndpoint_some hp
  obtain ⟨-, -, rfl⟩ := generatePolicyForEndpoint_some hq
  exact hle

theorem polLe_antisymm_parts {p q : Policy} (h1 : polLe p q) (h2 : polLe q p) :
    p.Metadata.Namespace = q.Metadata.Namespace ∧
      fmtLabels p.Spec.endpointSelector.MatchLabels =
        fmtLabels q.Spec.endpointSelector.MatchLabels := by
  rcases h1 with h1 | ⟨he1, hf1⟩
  · rcases h2 with h2 | ⟨he2, hf2⟩
    · rw [strLtB_asymm h1] at h2
      exact absurd h2 (by simp)
    · rw [he2, strLtB_irrefl] at h1
      exact absurd h1 (by simp)
  · rcases h2 with h2 | ⟨he2, hf2⟩
    · rw [he1, strLtB_irrefl] at h2
      exact absurd h2 (by simp)
    · exact ⟨he1, strLeB_antisymm hf1 hf2⟩

theorem filterMap_map_eq_of_eq {α β γ : Type} {f : β → Option γ} {g1 g2 : α → β} :
    ∀ l : List α, (∀ a ∈ l, f (g1 a) = f (g2 a)) →
      (l.map g1).filterMap f = (l.map g2).filterMap f := by
  intro l
  induction l with
  | nil => intro _; rfl
  | cons a t ih =>
    intro h
    rw [List.map_cons, List.map_cons, List.filterMap_cons, List.filterMap_cons, h a (by simp),
      ih (fun x hx => h x (by simp [hx]))]

theorem synthPolicies_perm_eq {l1 l2 : List ParsedFlow} (hperm : l1.Perm l2)
    (htcp : ∀ f ∈ l1, protoOf f = "TCP")
    (hd : ∀ f ∈ l1, ∀ g ∈ l1, keyOfFlow f = keyOfFlow g →
      f.DestNamespace = g.DestNamespace ∧ f.DestLabels = g.DestLabels)
    (hc : ∀ f ∈ l1, ∀ g ∈ l1, f.DestNamespace = g.DestNamespace →
      fmtLabels f.DestLabels = fmtLabels g.DestLabels → keyOfFlow f = keyOfFlow g)
    (hs : ∀ f ∈ l1, ∀ g ∈ l1, srcKeyOf f = srcKeyOf g → f.SourceLabels = g.SourceLabels) :
    (groupFlowsByEndpoint l1).filterMap generatePolicyForEndpoint =
      (groupFlowsByEndpoint l2).filterMap generatePolicyForEndpoint := by
  rw [groupFlowsByEndpoint_char, groupFlowsByEndpoint_char]
  set gl1 := l1.filter (fun f => !skipDest f) with hg1
  set gl2 := l2.filter (fun f => !skipDest f) with hg2
  have hgperm : gl1.Perm gl2 := hperm.filter _
  have htcp' : ∀ f ∈ gl1, protoOf f = "TCP" := fun f hf => htcp f (List.mem_filter.mp hf).1
  have hd' : ∀ f ∈ gl1, ∀ g ∈ gl1, keyOfFlow f = keyOfFlow g →
      f.DestNamespace = g.DestNamespace ∧ f.DestLabels = g.DestLabels :=
    fun f hf g hg => hd f (List.mem_filter.mp hf).1 g (List.mem_filter.mp hg).1
  have hc' : ∀ f ∈ gl1, ∀ g ∈ gl1, f.DestNamespace = g.DestNamespace →
      fmtLabels f.DestLabels = fmtLabels g.DestLabels → keyOfFlow f = keyOfFlow g :=
    fun f hf g hg => hc f (List.mem_filter.mp hf).1 g (List.mem_filter.mp hg).1
  have hs' : ∀ f ∈ gl1, ∀ g ∈ gl1, srcKeyOf f = srcKeyOf g → f.SourceLabels = g.SourceLabels :=
    fun f hf g hg => hs f (List.mem_filter.mp hf).1 g (List.mem_filter.mp hg).1
  have hdperm : (dedupF (gl1.map keyOfFlow)).Perm (dedupF (gl2.map keyOfFlow)) :=
    dedupF_perm (hgperm.map _)
  have hfun : ∀ k ∈ dedupF (gl2.map keyOfFlow),
      generatePolicyForEndpoint (gval keyOfFlow baseGroup updGroup k gl1) =
        generatePolicyForEndpoint (gval keyOfFlow baseGroup updGroup k gl2) := by
    intro k hk
    exact genPol_gval_eq hgperm
      (((hgperm.map keyOfFlow).mem_iff).mpr ((mem_dedupF _ _).mp hk)) htcp' hd' hs'
  have hchain :
      (((dedupF (gl1.map keyOfFlow)).map
          (fun k => gval keyOfFlow baseGroup updGroup k gl1)).insertionSort
            leGroup).filterMap generatePolicyForEndpoint |>.Perm
      ((((dedupF (gl2.map keyOfFlow)).map
          (fun k => gval keyOfFlow baseGroup updGroup k gl2)).insertionSort
            leGroup).filterMap generatePolicyForEndpoint) := by
    refine ((List.perm_insertionSort leGroup _).filterMap _).trans
      (List.Perm.trans ?_ ((List.perm_insertionSort leGroup _).filterMap _).symm)
    refine ((hdperm.map _).filterMap _).trans ?_
    rw [filterMap_map_eq_of_eq _ hfun]
  have hsorted1 :
      ((((dedupF (gl1.map keyOfFlow)).map
          (fun k => gval keyOfFlow baseGroup updGroup k gl1)).insertionSort
            leGroup).filterMap generatePolicyForEndpoint).Sorted polLe :=
    sorted_filterMap generatePolicyForEndpoint
      (fun _ _ _ _ hle hp hq => genPol_polLe hle hp hq) _
      (List.sorted_insertionSort leGroup _)
  have hsorted2 :
      ((((dedupF (gl2.map keyOfFlow)).map
          (fun k => gval keyOfFlow baseGroup updGroup k gl2)).insertionSort
            leGroup).filterMap generatePolicyForEndpoint).Sorted polLe :=
    sorted_filterMap generatePolicyForEndpoint
      (fun _ _ _ _ hle hp hq => genPol_polLe hle hp hq) _
      (List.sorted_insertionSort leGroup _)
  apply perm_sorted_eq _ _ hchain hsorted1 hsorted2
  intro a hA b hB h1 h2
  obtain ⟨ga, hga, hgax⟩ := List.mem_filterMap.mp hA
  obtain ⟨gb, hgb, hgbx⟩ := List.mem_filterMap.mp hB
  obtain ⟨ka, hka, hpa⟩ := List.mem_map.mp ((List.mem_insertionSort leGroup).mp hga)
  obtain ⟨kb, hkb, hpb⟩ := List.mem_map.mp ((List.mem_insertionSort leGroup).mp hgb)
  have hka1 : ka ∈ gl1.map keyOfFlow := (mem_dedupF _ _).mp hka
  have hkb1 : kb ∈ gl1.map keyOfFlow := (mem_dedupF _ _).mp hkb
  obtain ⟨ca, hcau, hcak, hkeya⟩ := gval_group_head hka1
  obtain ⟨cb, hcbu, hcbk, hkeyb⟩ := gval_group_head hkb1
  rw [← hpa] at hgax
  rw [← hpb] at hgbx
  obtain ⟨-, -, haeq⟩ := generatePolicyForEndpoint_some hgax
  obtain ⟨-, -, hbeq⟩ := generatePolicyForEndpoint_some hgbx
  have hans : a.Metadata.Namespace = ca.DestNamespace := by
    rw [haeq, hkeya]
  have halb : a.Spec.endpointSelector.MatchLabels = ca.DestLabels := by
    rw [haeq, hkeya]
  have hbns : b.Metadata.Namespace = cb.DestNamespace := by
    rw [hbeq, hkeyb]
  have hblb : b.Spec.endpointSelector.MatchLabels = cb.DestLabels := by
    rw [hbeq, hkeyb]
  obtain ⟨hnseq, hfmteq⟩ := polLe_antisymm_parts h1 h2
  have hkeq : keyOfFlow ca = keyOfFlow cb := by
    apply hc' ca hcau cb hcbu
    · rw [← hans, ← hbns]
      exact hnseq
    · rw [← halb, ← hblb]
      exact hfmteq
  have hkk : ka = kb := by rw [← hcak, ← hcbk, hkeq]
  rw [hkk] at hgax
  rw [hgax] at hgbx
  exact Option.some_injective _ hgbx

/-! ## Claim C1 (counterexample) -/

set_option maxRecDepth 100000 in
/-- C1 counterexample: `[flowTCP, flowUDP]` and `[flowUDP, flowTCP]` are
permutations of the same flow set, both synthesize and serialize
successfully, yet the serialized output differs byte-wise (the `toPorts`
blocks are emitted in protocol first-occurrence order). -/
theorem synthesis_not_permutation_invariant :
    List.Perm [flowTCP, flowUDP] [flowUDP, flowTCP] ∧
    (synthAndWrite [flowTCP, flowUDP]).toOption.isSome = true ∧
    (synthAndWrite [flowTCP, flowUDP]).toOption ≠
      (synthAndWrite [flowUDP, flowTCP]).toOption :=
  ⟨List.Perm.swap flowUDP flowTCP [], by decide, by decide⟩

set_option maxRecDepth 100000 in
/-- C1 (amended): synthesis followed by serialization is byte-identical
across permutations of the flow list when every flow's effective protocol
is TCP and the input is free of the three name/key collisions the code is
sensitive to: flows with one canonical destination key agree literally on
destination namespace and label map, distinct destination units never share
the (namespace, rendered-label) sort key, and flows whose source label maps
render equally agree literally on source labels.  (Without these provisos the
claim fails: with mixed protocols the `toPorts` blocks follow protocol
first-occurrence order.) -/
theorem determinism_under_single_protocol (l1 l2 : List ParsedFlow) (hperm : l1.Perm l2)
    (htcp : ∀ f ∈ l1, protoOf f = "TCP")
    (hd : ∀ f ∈ l1, ∀ g ∈ l1, keyOfFlow f = keyOfFlow g →
      f.DestNamespace = g.DestNamespace ∧ f.DestLabels = g.DestLabels)
    (hc : ∀ f ∈ l1, ∀ g ∈ l1, f.DestNamespace = g.DestNamespace →
      fmtLabels f.DestLabels = fmtLabels g.DestLabels → keyOfFlow f = keyOfFlow g)
    (hs : ∀ f ∈ l1, ∀ g ∈ l1, srcKeyOf f = srcKeyOf g → f.SourceLabels = g.SourceLabels) :
    synthAndWrite l1 = synthAndWrite l2 := by
  unfold synthAndWrite SynthesizePolicies
  by_cases h1 : l1 = []
  · have h2 : l2 = [] := List.Perm.eq_nil (by rw [h1] at hperm; exact hperm.symm)
    rw [if_pos h1, if_pos h2]
  · have h2 : l2 ≠ [] := fun hcn => h1 (List.Perm.eq_nil (by rw [hcn] at hperm; exact hperm))
    rw [if_neg h1, if_neg h2, synthPolicies_perm_eq hperm htcp hd hc hs]

set_option maxRecDepth 1000000 in
/-- C1 witness: two orderings of the same pair of TCP flows (ports 80 and
8080 into the catalog unit) satisfy every hypothesis and serialize to the
same bytes. -/
theorem determinism_under_single_protocol_witness :
    synthAndWrite [flowTCP, flowA] = synthAndWrite [flowA, flowTCP] :=
  determinism_under_single_protocol [flowTCP, flowA] [flowA, flowTCP]
    (List.Perm.swap flowA flowTCP [])
    (by decide) (by decide) (by decide) (by decide)

/-! ## Claim C7 (counterexample) -/

set_option maxRecDepth 100000 in
/-- C7 counterexample: the two destination label maps of `flowCollideA` and
`flowCollideB` are distinct but share one canonical key string, so both
flows land in one unit and the emitted entry for port 443 matches no input
flow exactly. -/
theorem minimality_fails_on_collision :
    keyOfFlow flowCollideA = keyOfFlow flowCollideB ∧
    eqAsMap flowCollideA.DestLabels flowCollideB.DestLabels = false ∧
    minimalityHolds [flowCollideA, flowCollideB] = false :=
  ⟨by decide, by decide, by decide⟩

/-! ## Claim C3 (counterexample) -/

set_option maxRecDepth 100000 in
/-- C3 counterexample: `docTwoViolations` carries two field-level
violations inside its single ingress rule (a `fromEndpoints` entry without
matchLabels, and a `toPorts` port entry with protocol `HTTP`), each
detected by the corresponding check in isolation, yet the document's result
accumulates only one error message. -/
theorem rule_violations_not_all_accumulated :
    checkEndpointsList "fromEndpoints" [.map []] =
      some "fromEndpoints[0] missing matchLabels" ∧
    validatePortRule
        (.map [("ports", .arr [.map [("port", .str "80"), ("protocol", .str "HTTP")]])]) =
      some "ports[0].protocol invalid: must be TCP, UDP, ICMP, or SCTP" ∧
    (checkPolicyDoc docTwoViolations).Errors =
      ["ingress[0]: fromEndpoints[0] missing matchLabels"] :=
  ⟨by decide, by decide, by decide⟩

end PolicyPilot
